import Mathlib

/-!
# Verification of the quiz-solving agent

A shallow embedding, in Lean 4, of the quiz-solving agent consisting of
`main.py` (HTTP trigger), `solver/agent.py` (the agent control loop),
`solver/planner.py` (plan and answer resolvers) and `solver/tools.py`
(content fetcher, file retriever, extractors).

Modelling conventions:
* Python JSON/dict values are modelled by `JVal` and association lists
  (`Dict`); Python truthiness by `JVal.truthy`.
* Network calls (headless-browser rendering, the two LLM completion calls,
  the file download response, and the submission POST) are oracles carried
  in a `RoundEnv`; an `Except String _` oracle's `.error` case models a
  raised Python exception carrying its message.
* Wall-clock time is modelled by one rational "elapsed seconds" sample per
  loop iteration, taken where `agent.py` reads `time.time() - start_time`.
* `urllib.parse.urljoin` is external library code; it is embedded from
  CPython's `Lib/urllib/parse.py` (`urlparse`/`urlsplit`/`urlunparse`/
  `urlunsplit`/`urljoin`), omitting only the sanitisation of tab/CR/LF and
  control characters and the IPv6-bracket validation errors.
-/

/-- A JSON-ish Python value, sufficient for the dict fields this program
reads (`question`, `data_url`, `submit_url`, `error`, `correct`, `url`,
`reason`). -/
inductive JVal where
  | jnull
  | jbool (b : Bool)
  | jnum (n : Int)
  | jstr (s : String)
deriving DecidableEq

/-- Python truthiness (`if x:`) on `JVal`: `None`, `False`, `0` and `""`
are falsy. -/
def JVal.truthy : JVal → Bool
  | .jnull => false
  | .jbool b => b
  | .jnum n => n != 0
  | .jstr s => s != ""

/-- A Python dict with `JVal` values, as an association list (first match
wins; Python dicts have unique keys). -/
abbrev Dict := List (String × JVal)

/-- `d.get(k)`: `none` models an absent key (Python `None` default). -/
def dictGet (d : Dict) (k : String) : Option JVal :=
  (d.find? (fun p => p.1 == k)).map (·.2)

/-- `k in d`: Python dict key membership. -/
def dictHasKey (d : Dict) (k : String) : Bool :=
  d.any (fun p => p.1 == k)

/-- Truthiness of `d.get(k)`: an absent key gives `None`, which is falsy. -/
def truthyO : Option JVal → Bool
  | none => false
  | some v => v.truthy

/-! ## Answer resolver (`planner.py`, `get_answer_from_llm`) -/

/-- The answer value returned by `get_answer_from_llm`: an integer from the
numeric-coercion path, or a string otherwise. -/
inductive AnswerV where
  | int (n : Nat)
  | str (s : String)
deriving DecidableEq

/-- Characters stripped by Python `str.strip()`: the full `str.isspace()`
set of CPython's Unicode database — ASCII whitespace `\t\n\v\f\r` and
space, the separators U+001C–U+001F, NEL U+0085, and the Unicode space
characters U+00A0, U+1680, U+2000–U+200A, U+2028, U+2029, U+202F,
U+205F, U+3000. -/
def pyIsSpace (c : Char) : Bool :=
  c == ' ' || c == '\t' || c == '\n' || c == '\r' || c == '\x0b' ||
  c == '\x0c' || c == '\x1c' || c == '\x1d' || c == '\x1e' || c == '\x1f' ||
  c == '\x85' || c == '\u00A0' || c == '\u1680' ||
  ('\u2000' ≤ c && c ≤ '\u200A') || c == '\u2028' || c == '\u2029' ||
  c == '\u202F' || c == '\u205F' || c == '\u3000'

/-- Python `s.strip()`. -/
def pyStrip (s : String) : String :=
  ⟨((s.data.dropWhile pyIsSpace).reverse.dropWhile pyIsSpace).reverse⟩

/-- `re.sub(r"[^0-9.]", "", s)`: keep only digits and dots. -/
def keepDigitsDots (s : String) : String :=
  ⟨s.data.filter (fun c => c.isDigit || c == '.')⟩

/-- Value of a digit string. -/
def digitsToNat (l : List Char) : Nat :=
  l.foldl (fun a c => 10 * a + (c.toNat - '0'.toNat)) 0

/-- Number of binary digits of `n` (`0` for `0`), with the first argument
as structural fuel: `bitLenAux n n` suffices because `n / 2 < n`. -/
def bitLenAux : Nat → Nat → Nat
  | 0, _ => 0
  | fuel + 1, n => if n = 0 then 0 else bitLenAux fuel (n / 2) + 1

/-- Number of binary digits of `n`: `bitLen n - 1 = ⌊log₂ n⌋` for
`n ≥ 1`. -/
def bitLen (n : Nat) : Nat :=
  bitLenAux n n

/-- `⌊log₂ (N / 10 ^ k)⌋` for `N ≥ 1`: the bit-length difference of
numerator and denominator is off by at most one and is corrected by a
single exact comparison (`N / 10 ^ k < 2 ^ c`, cross-multiplied so all
arithmetic stays in `Nat`). -/
def ilog2Dec (N k : Nat) : Int :=
  let c : Int := (bitLen N : Int) - (bitLen (10 ^ k) : Int)
  let qLtC : Bool :=
    if 0 ≤ c then decide (N < 2 ^ c.toNat * 10 ^ k)
    else decide (N * 2 ^ (-c).toNat < 10 ^ k)
  if qLtC then c - 1 else c

/-- Round the nonnegative rational `A / B` (`B ≠ 0`) to the nearest
integer, ties to even — the IEEE-754 rounding rule, decided exactly from
the integer quotient and remainder. -/
def rneDiv (A B : Nat) : Nat :=
  let n := A / B
  let r := A % B
  if 2 * r < B then n
  else if B < 2 * r then n + 1
  else if n % 2 = 0 then n else n + 1

/-- Outcome of Python `int(float(s))` on a cleaned digit/dot string. -/
inductive IntOfFloat where
  /-- `float(s)` raised `ValueError` (no digit, or more than one dot). -/
  | valueError
  /-- `float(s)` overflowed to infinity and `int(inf)` raised
  `OverflowError` — which `except ValueError` does not catch. -/
  | overflow
  /-- The finite double truncated toward zero. -/
  | num (n : Nat)
deriving DecidableEq

/-- `int(float(·))` of the exact decimal `N / 10 ^ k`, at full binary64
fidelity: CPython's `float` conversion is correctly rounded (David Gay's
`strtod`), i.e. round to nearest with ties to even at 53 significant
bits, subnormal below `2 ^ (-1022)` (the rounding step floors at
`2 ^ (-1074)`), and overflow to infinity exactly when the rounded value
reaches `2 ^ 1024`; `int` then truncates the finite double toward zero.
The significand `m` is `N / (10 ^ k * 2 ^ s)` rounded to nearest-even at
the double's step `2 ^ s`, with the division cross-multiplied so all
arithmetic stays exact in `Nat`. -/
def intOfFloatDec (N k : Nat) : IntOfFloat :=
  if N = 0 then .num 0
  else
    let e : Int := ilog2Dec N k
    let s : Int := max (e - 52) (-1074)
    if 0 ≤ s then
      let m := rneDiv N (10 ^ k * 2 ^ s.toNat)
      if 2 ^ 1024 ≤ m * 2 ^ s.toNat then .overflow
      else .num (m * 2 ^ s.toNat)
    else
      let m := rneDiv (N * 2 ^ (-s).toNat) (10 ^ k)
      if 2 ^ (1024 + (-s).toNat) ≤ m then .overflow
      else .num (m / 2 ^ (-s).toNat)

/-- `int(float(s))` for a cleaned (digit/dot only) string: `float`
raises `ValueError` unless the string has at most one dot and at least
one digit; otherwise the string denotes the exact decimal `N / 10 ^ k`
with `N` its digits read without the dot and `k` the number of digits
after the dot. -/
def pyIntOfFloat (s : String) : IntOfFloat :=
  if s.data.count '.' ≤ 1 ∧ s.data.any Char.isDigit ∧
      s.data.all (fun c => c.isDigit || c == '.') then
    let frac_part := (s.data.dropWhile (fun c => !(c == '.'))).drop 1
    intOfFloatDec (digitsToNat (s.data.filter Char.isDigit)) frac_part.length
  else .valueError

/-- The post-processing tail of `get_answer_from_llm` (planner.py lines
131-148), applied to the raw completion text:
`answer = content.strip()`; if empty or the sentinel, return the
sentinel; otherwise strip every non-digit/non-dot character and, if the
remainder is non-empty, try `int(float(cleaned))` — a `ValueError` is
caught by the inner `except ValueError: pass` and the stripped `answer`
is returned, but the `OverflowError` of `int(inf)` is not: it escapes to
the function's outer `except Exception as e: return f"Error: <e>"`,
which yields the string `"Error: cannot convert float infinity to
integer"`. -/
def normalize_answer (raw : String) : AnswerV :=
  let answer := pyStrip raw
  if answer = "" ∨ answer = "ANSWER_NOT_FOUND" then .str "ANSWER_NOT_FOUND"
  else
    let cleaned := keepDigitsDots answer
    if cleaned ≠ "" then
      match pyIntOfFloat cleaned with
      | .num n => .int n
      | .valueError => .str answer
      | .overflow => .str "Error: cannot convert float infinity to integer"
    else .str answer

/-- `get_answer_from_llm`, as a function of the completion exchange: an
exception anywhere in the `try` block is caught and converted to the string
answer `"Error: <reason>"`; a successful exchange yields the normalized
raw completion text. -/
def get_answer_from_llm (llm : Except String String) : AnswerV :=
  match llm with
  | .error e => .str ("Error: " ++ e)
  | .ok content => normalize_answer content

/-! ## Plan resolver (`planner.py`, `get_plan_from_llm`) -/

/-- Rendering of a `JVal` used in the planner's error message (Python
`repr` up to string quoting, which no claim depends on). -/
def reprJVal : JVal → String
  | .jnull => "None"
  | .jbool true => "True"
  | .jbool false => "False"
  | .jnum n => toString n
  | .jstr s => s

/-- Rendering of a plan dict used in the planner's error message (Python
dict `repr` up to quoting/spacing, which no claim depends on). -/
def reprDict (d : Dict) : String :=
  "\x7b" ++ String.intercalate ", " (d.map (fun p => p.1 ++ ": " ++ reprJVal p.2)) ++ "\x7d"

/-- `get_plan_from_llm`, as a function of the completion exchange
(`.error e` models an HTTP failure, a missing response field or a JSON
parse failure raised inside the `try`; `.ok d` the successfully parsed
plan dict).  A parsed dict whose `submit_url` is falsy raises a
`ValueError`, which the same `except` turns into `{"error": str(e)}`. -/
def get_plan_from_llm (llm : Except String Dict) : Dict :=
  match llm with
  | .error e => [("error", .jstr e)]
  | .ok d =>
    if truthyO (dictGet d "submit_url") then d
    else [("error", .jstr ("LLM failed to find a submit_url. Plan: " ++ reprDict d))]

/-! ## Character-list string helpers (Python `str.split` and friends)

Lean's built-in `String.splitOn`, `String.contains`, `String.startsWith`
do not reduce inside the kernel, so the Python string operations are
modelled directly on `List Char`. -/

/-- Python `s.split(sep)` for a one-character separator: always returns a
non-empty list; `"".split(c) = [""]`. -/
def splitAllChar (sep : Char) : List Char → List (List Char)
  | [] => [[]]
  | c :: rest =>
    if c == sep then [] :: splitAllChar sep rest
    else
      match splitAllChar sep rest with
      | h :: t => (c :: h) :: t
      | [] => [[c]]

/-- Python `s.startswith(pre)`. -/
def pyStartsWith (s pre : String) : Bool :=
  pre.data.isPrefixOf s.data

/-- Python `s.endswith(suf)`. -/
def pyEndsWith (s suf : String) : Bool :=
  suf.data.isSuffixOf s.data

/-! ## Tools (`tools.py`) -/

/-- `scrape_page_content`, as a function of the rendering outcome: the full
page markup on success, or an `"Error: ..."` string built from the caught
exception (the function never raises). -/
def scrape_page_content (render : Except String String) : String :=
  match render with
  | .ok content => content
  | .error e => "Error: Could not scrape page. " ++ e

/-- An HTTP response as seen by `download_file`: a status code and a body.
`download_file` never reads the status. -/
structure HttpResponse where
  status : Nat
  content : String
deriving DecidableEq

/-- The local filename `download_file` derives from the URL:
`url.split('/')[-1].split('?')[0]`, and if that contains no dot,
`"data_" + filename.split('-')[-1]`. -/
def derived_filename (url : String) : String :=
  let filename := (splitAllChar '?' ((splitAllChar '/' url.data).getLastD [])).headD []
  if filename.contains '.' then (⟨filename⟩ : String)
  else "data_" ++ ⟨(splitAllChar '-' filename).getLastD []⟩

/-- `download_file(url, save_path)` given the GET response: writes the
response body to `save_path/<derived filename>` and returns that path.
The result is the pair (returned path, bytes written); the HTTP status is
never consulted. -/
def download_file (url : String) (save_path : String) (resp : HttpResponse) :
    String × String :=
  (save_path ++ "/" ++ derived_filename url, resp.content)

/-! ## HTTP trigger (`main.py`, `start_quiz`) -/

/-- The body of a POST to `/quiz-endpoint` (extra fields are allowed and
ignored by the handler). -/
structure QuizPayload where
  email : String
  secret : String
  url : String
  extra : List (String × JVal)
deriving DecidableEq

/-- Outcome of the trigger endpoint: an `HTTPException` (status, detail),
or the immediate acceptance response together with the background task's
arguments (`none` would mean no task scheduled; the handler always
schedules exactly one on success). -/
inductive TriggerOutcome where
  | httpError (status : Nat) (detail : String)
  | accepted (status : String) (message : String)
      (task : Option (String × String × String))
deriving DecidableEq

/-- The arguments the handler scheduled `run_quiz_solver_background` with,
if any. -/
def scheduledTask : TriggerOutcome → Option (String × String × String)
  | .httpError _ _ => none
  | .accepted _ _ t => t

/-- `start_quiz` (main.py lines 43-79): validate secret, then email,
against the configured values (`os.environ.get` may yield `none`; a string
never equals `None`); on success schedule the solver as a background task
and immediately return the fixed acceptance response. -/
def start_quiz (mySecret myEmail : Option String) (payload : QuizPayload) :
    TriggerOutcome :=
  if some payload.secret ≠ mySecret then
    .httpError 403 "Invalid secret provided."
  else if some payload.email ≠ myEmail then
    .httpError 403 "Invalid email provided."
  else
    .accepted "accepted" "Quiz task accepted and is processing in the background."
      (some (payload.email, payload.secret, payload.url))

/-! ## `urllib.parse` (CPython `Lib/urllib/parse.py`)

`agent.py` resolves `data_url` and `submit_url` with
`urllib.parse.urljoin`.  The embedding below follows CPython's
`urlsplit`/`urlparse`/`urlunsplit`/`urlunparse`/`urljoin` on `List Char`,
omitting the removal of tab/CR/LF bytes, the stripping of leading control
characters, and the `ValueError`s for malformed IPv6 netlocs (none of
which any claim touches). -/

/-- Split a character list at the first occurrence of `sep`:
`some (before, after)`, or `none` when `sep` does not occur
(Python `s.split(sep, 1)`). -/
def splitFirst (sep : Char) : List Char → Option (List Char × List Char)
  | [] => none
  | c :: rest =>
    if c == sep then some ([], rest)
    else
      match splitFirst sep rest with
      | some (pre, post) => some (c :: pre, post)
      | none => none

/-- Split a character list at the last occurrence of `sep` (used for
Python's `url.rfind('/')`). -/
def splitLast (sep : Char) (l : List Char) : Option (List Char × List Char) :=
  match splitFirst sep l.reverse with
  | some (b, a) => some (a.reverse, b.reverse)
  | none => none

/-- The characters after the last `'/'`, or the whole list if there is
none (the part of a path `_splitparams` searches for `';'`). -/
def lastSeg (l : List Char) : List Char :=
  (l.reverse.takeWhile (fun c => !(c == '/'))).reverse

/-- CPython `scheme_chars`: letters, digits, `+`, `-`, `.`. -/
def schemeChar (c : Char) : Bool :=
  c.isAlpha || c.isDigit || c == '+' || c == '-' || c == '.'

/-- Lowercasing applied to a parsed scheme. -/
def lowerL (l : List Char) : List Char := l.map Char.toLower

/-- `_splitnetloc`'s delimiters: a netloc extends to the first
`'/'`, `'?'` or `'#'`. -/
def notDelim (c : Char) : Bool :=
  !(c == '/' || c == '?' || c == '#')

/-- The scheme step of `urlsplit`: if the text before the first `':'` is a
non-empty run of scheme characters starting with a letter, it is the
(lowercased) scheme and is removed; otherwise the default scheme is used
and the URL is left whole. -/
def splitScheme (url dscheme : List Char) : List Char × List Char :=
  match splitFirst ':' url with
  | some (c :: pre, post) =>
    if c.isAlpha && (c :: pre).all schemeChar then (lowerL (c :: pre), post)
    else (dscheme, url)
  | _ => (dscheme, url)

/-- The netloc step of `urlsplit`: if the remainder starts with `//`, the
netloc is everything up to the next `/`, `?` or `#`. -/
def splitNetlocStep (l : List Char) : List Char × List Char :=
  if l.take 2 = ['/', '/'] then
    ((l.drop 2).takeWhile notDelim, (l.drop 2).dropWhile notDelim)
  else ([], l)

/-- The fragment step of `urlsplit`: `url.split('#', 1)` when `'#'`
occurs. -/
def splitFragment (l : List Char) : List Char × List Char :=
  match splitFirst '#' l with
  | some (a, b) => (a, b)
  | none => (l, [])

/-- The query step of `urlsplit`: `url.split('?', 1)` when `'?'` occurs. -/
def splitQuery (l : List Char) : List Char × List Char :=
  match splitFirst '?' l with
  | some (a, b) => (a, b)
  | none => (l, [])

/-- Result of CPython `urlsplit`. -/
structure SplitL where
  scheme : List Char
  netloc : List Char
  path : List Char
  query : List Char
  fragment : List Char
deriving DecidableEq

/-- CPython `urlsplit(url, scheme=dscheme, allow_fragments=True)`. -/
def urlsplitL (url dscheme : List Char) : SplitL :=
  let s1 := splitScheme url dscheme
  let s2 := splitNetlocStep s1.2
  let s3 := splitFragment s2.2
  let s4 := splitQuery s3.1
  ⟨s1.1, s2.1, s4.1, s4.2, s3.2⟩

/-- CPython `_splitparams`: split `';'`-parameters off the last path
segment (the search for `';'` starts at the last `'/'`). -/
def splitParamsL (p : List Char) : List Char × List Char :=
  match splitLast '/' p with
  | some (pre, post) =>
    match splitFirst ';' post with
    | some (a, b) => (pre ++ '/' :: a, b)
    | none => (p, [])
  | none =>
    match splitFirst ';' p with
    | some (a, b) => (a, b)
    | none => (p, [])

/-- Result of CPython `urlparse`. -/
structure ParseL where
  scheme : List Char
  netloc : List Char
  path : List Char
  params : List Char
  query : List Char
  fragment : List Char
deriving DecidableEq

/-- CPython `uses_relative`. -/
def usesRelative : List (List Char) :=
  ["", "ftp", "http", "gopher", "nntp", "imap", "wais", "file", "https",
   "shttp", "mms", "prospero", "rtsp", "rtspu", "sftp", "svn", "svn+ssh",
   "ws", "wss"].map String.data

/-- CPython `uses_netloc`. -/
def usesNetloc : List (List Char) :=
  ["", "ftp", "http", "gopher", "nntp", "telnet", "imap", "wais", "file",
   "mms", "https", "shttp", "snews", "prospero", "rtsp", "rtspu", "rsync",
   "svn", "svn+ssh", "sftp", "nfs", "git", "git+ssh", "ws", "wss",
   "itms-services"].map String.data

/-- CPython `uses_params`. -/
def usesParams : List (List Char) :=
  ["", "ftp", "hdl", "prospero", "http", "imap", "https", "shttp", "rtsp",
   "rtspu", "sip", "sips", "mms", "sftp", "tel"].map String.data

/-- CPython `urlparse(url, scheme=dscheme, allow_fragments=True)`:
`urlsplit` plus the parameter split on the path. -/
def urlparseL (url dscheme : List Char) : ParseL :=
  let s := urlsplitL url dscheme
  if s.scheme ∈ usesParams ∧ ';' ∈ s.path then
    let pp := splitParamsL s.path
    ⟨s.scheme, s.netloc, pp.1, pp.2, s.query, s.fragment⟩
  else ⟨s.scheme, s.netloc, s.path, [], s.query, s.fragment⟩

/-- CPython 3.11 `urlunsplit`. -/
def urlunsplitL (scheme netloc url query fragment : List Char) : List Char :=
  let url1 :=
    if netloc ≠ [] ∨ (scheme ≠ [] ∧ scheme ∈ usesNetloc ∧ url.take 2 ≠ ['/', '/']) then
      '/' :: '/' :: (netloc ++ (if url ≠ [] ∧ url.take 1 ≠ ['/'] then '/' :: url else url))
    else url
  let url2 := if scheme ≠ [] then scheme ++ ':' :: url1 else url1
  let url3 := if query ≠ [] then url2 ++ '?' :: query else url2
  if fragment ≠ [] then url3 ++ '#' :: fragment else url3

/-- CPython `urlunparse`: re-attach the parameters, then `urlunsplit`. -/
def urlunparseL (scheme netloc path params query fragment : List Char) : List Char :=
  urlunsplitL scheme netloc (if params ≠ [] then path ++ ';' :: params else path)
    query fragment

/-- The path+params text assembled by `urlunparse` before `urlunsplit`
(an abbreviation used by the reparse lemmas below). -/
def pathParams (p pr : List Char) : List Char :=
  if pr ≠ [] then p ++ ';' :: pr else p

/-- The path as written by `urlunsplit` when a netloc is present:
`'/'`-prefixed when non-empty and not already absolute (an abbreviation
used by the reparse lemmas below). -/
def normPath (pc : List Char) : List Char :=
  if pc ≠ [] ∧ pc.take 1 ≠ ['/'] then '/' :: pc else pc

/-- A path forced absolute: what reparsing `urlunsplit`'s output recovers
as the path component (an abbreviation used by the reparse lemmas
below). -/
def absPath (p : List Char) : List Char :=
  if p = [] then [] else if p.take 1 ≠ ['/'] then '/' :: p else p

/-- Optional `?query` tail written by `urlunsplit`. -/
def optQ (q : List Char) : List Char := if q ≠ [] then '?' :: q else []

/-- Optional `#fragment` tail written by `urlunsplit`. -/
def optF (f : List Char) : List Char := if f ≠ [] then '#' :: f else []

/-- `segments[1:-1] = filter(None, segments[1:-1])` in `urljoin`: drop
empty segments strictly between the first and last. -/
def filterMiddle (l : List (List Char)) : List (List Char) :=
  match l with
  | [] => []
  | [x] => [x]
  | x :: rest => x :: (rest.dropLast.filter (fun s => !s.isEmpty) ++ [rest.getLastD []])

/-- The `..`/`.` resolution loop of `urljoin` (`pop` on an empty list is
swallowed, `.` segments are dropped). -/
def resolveSegs (segs : List (List Char)) : List (List Char) :=
  segs.foldl
    (fun acc seg =>
      if seg = ['.', '.'] then acc.dropLast
      else if seg = ['.'] then acc
      else acc ++ [seg])
    []

/-- `'/'.join(l)`. -/
def joinSlash : List (List Char) → List Char
  | [] => []
  | [x] => x
  | x :: y :: t => x ++ '/' :: joinSlash (y :: t)

/-- The resolved path `urljoin` computes for a reference against the base
path `/p/q` (whose parts after the directory split are `["", "p"]`);
an abbreviation naming the corresponding piece of `urljoinCore` for the
lemmas about the concrete base `https://h/p/q`. -/
def resolvedPathPQ (p : List Char) : List Char :=
  let segments :=
    if p.take 1 = ['/'] then splitAllChar '/' p
    else filterMiddle ([[], ['p']] ++ splitAllChar '/' p)
  let resolved := resolveSegs segments
  let resolved1 :=
    if segments.getLastD [] = ['.'] ∨ segments.getLastD [] = ['.', '.'] then
      resolved ++ [[]]
    else resolved
  let rp := joinSlash resolved1
  if rp = [] then ['/'] else rp

/-- The body of CPython `urljoin` after both `urlparse` calls: `b` is the
parse of the base, `r` the parse of the url (with the base's scheme as
default), `url` the raw url (returned unchanged for foreign schemes). -/
def urljoinCore (b r : ParseL) (url : List Char) : List Char :=
  if r.scheme ≠ b.scheme ∨ r.scheme ∉ usesRelative then url
  else if r.scheme ∈ usesNetloc ∧ r.netloc ≠ [] then
    urlunparseL r.scheme r.netloc r.path r.params r.query r.fragment
  else
    let netloc := if r.scheme ∈ usesNetloc then b.netloc else r.netloc
    if r.path = [] ∧ r.params = [] then
      urlunparseL r.scheme netloc b.path b.params
        (if r.query = [] then b.query else r.query) r.fragment
    else
      let baseParts := splitAllChar '/' b.path
      let baseParts1 := if baseParts.getLastD [] ≠ [] then baseParts.dropLast else baseParts
      let segments :=
        if r.path.take 1 = ['/'] then splitAllChar '/' r.path
        else filterMiddle (baseParts1 ++ splitAllChar '/' r.path)
      let resolved := resolveSegs segments
      let resolved1 :=
        if segments.getLastD [] = ['.'] ∨ segments.getLastD [] = ['.', '.'] then
          resolved ++ [[]]
        else resolved
      let rp := joinSlash resolved1
      urlunparseL r.scheme netloc (if rp = [] then ['/'] else rp) r.params r.query r.fragment

/-- CPython `urljoin(base, url)` on character lists. -/
def urljoinL (base url : List Char) : List Char :=
  if base = [] then url
  else if url = [] then base
  else urljoinCore (urlparseL base []) (urlparseL url (urlparseL base []).scheme) url

/-- `urllib.parse.urljoin` on strings, as called by `agent.py`. -/
def pyUrljoin (base url : String) : String :=
  ⟨urljoinL base.data url.data⟩


/-! ## Agent control loop (`agent.py`, `run_quiz_solver_background`)

One iteration of the `while current_url:` loop is `runRound`; the loop
itself is `runLoop`, driven by one `(elapsed, RoundEnv)` pair per
potential round (elapsed seconds sampled at the pre-round timeout check,
environment oracles for that round's network exchanges). -/

/-- The per-round environment: results of the round's external
exchanges.  An `Except`'s `.error e` is a raised exception with message
`e`. -/
structure RoundEnv where
  /-- The string returned by `scrape_page_content(current_url)`. -/
  scrapeResult : String
  /-- The planner's completion exchange, fed to `get_plan_from_llm`. -/
  planLLM : Except String Dict
  /-- The GET response inside `download_file`, or an exception during the
  download. -/
  download : Except String HttpResponse
  /-- Result of `get_text_from_pdf` on the saved file. -/
  pdfExtract : Except String String
  /-- Result of `get_text_from_csv` on the saved file. -/
  csvExtract : Except String String
  /-- The answerer's completion exchange, fed to `get_answer_from_llm`. -/
  answerLLM : Except String String
  /-- The submission POST: `.ok d` is a 2xx response whose body parsed to
  the dict `d`; `.error` is a network error, a non-2xx status
  (`raise_for_status`), or an unparsable/non-dict body. -/
  submitResult : Except String Dict

/-- How one round ended. -/
inductive RoundResult where
  /-- The pre-round timeout check failed: `break` before any call. -/
  | timedOut
  /-- The scraped page started with `"Error:"`: `break`. -/
  | scrapeFailed
  /-- The plan dict contained the key `"error"`: `break`. -/
  | planFailed
  /-- An exception reached the round's `except`: `current_url = None`. -/
  | exnCaught
  /-- Submission parsed; the next `current_url` is `result_data.get("url")`. -/
  | continued (next : Option JVal)
deriving DecidableEq

/-- Which externally visible calls the round made, and with what
arguments. -/
structure RoundTrace where
  /-- `scrape_page_content` was invoked. -/
  fetchCalled : Bool := false
  /-- `get_plan_from_llm` was invoked (the planning LLM call). -/
  planCalled : Bool := false
  /-- Value of `data_url` after the `urljoin` resolution, when truthy
  before resolution. -/
  resolvedDataUrl : Option String := none
  /-- Value of `submit_url` after the `urljoin` resolution, when truthy
  before resolution. -/
  resolvedSubmitUrl : Option String := none
  /-- URL passed to `download_file`, when a download was attempted. -/
  downloadUrl : Option String := none
  /-- The `data_context` argument passed to `get_answer_from_llm`. -/
  dataContext : Option String := none
  /-- `get_answer_from_llm` was invoked (the answering LLM call). -/
  answerCalled : Bool := false
  /-- Target URL of the submission POST, when one was issued. -/
  submitTarget : Option String := none
deriving DecidableEq

/-- The string carried by an optional `JVal`, for trace recording. -/
def optStr : Option JVal → Option String
  | some (.jstr s) => some s
  | _ => none

/-- `if x: x = urljoin(current_url, x)` (agent.py lines 56-59): a falsy
value is left unchanged; a truthy value requires both `current_url` and
the value to be strings (otherwise `urljoin` raises a `TypeError`,
modelled as `none`). -/
def resolveStep (current : JVal) (x : Option JVal) : Option (Option JVal) :=
  if truthyO x then
    match current, x with
    | .jstr b, some (.jstr s) => some (some (.jstr (pyUrljoin b s)))
    | _, _ => none
  else some x

/-- Steps 3 of the loop body (agent.py lines 67-84): the default
`data_context` is the scraped page; a truthy resolved `data_url` triggers
`download_file` and suffix-dispatched extraction, any exception in that
inner `try` degrading `data_context` to `"Error processing file: <e>"`.
Returns (URL passed to `download_file` if any, resulting
`data_context`). -/
def dataAcquisition (page_context : String) (data_url : Option JVal)
    (env : RoundEnv) : Option String × String :=
  match data_url with
  | some (.jstr d) =>
    if d ≠ "" then
      (some d,
        match env.download with
        | .error e => "Error processing file: " ++ e
        | .ok resp =>
          let file_path := (download_file d "temp_data" resp).1
          if pyEndsWith file_path ".pdf" then
            match env.pdfExtract with
            | .ok t => t
            | .error e => "Error processing file: " ++ e
          else if pyEndsWith file_path ".csv" then
            match env.csvExtract with
            | .ok t => t
            | .error e => "Error processing file: " ++ e
          else "File downloaded to: " ++ file_path)
    else (none, page_context)
  | _ => (none, page_context)

/-- One iteration of the `while current_url:` loop (agent.py lines
28-124), for the given elapsed time at the pre-round check.  Faithful to
the source order: timeout check, scrape, plan, URL resolution, data
acquisition, answering, submission, continuation; any exception inside
the outer `try` yields `exnCaught` (the code then clears `current_url`).
`question[:30]` at the top of `get_answer_from_llm` raises unless the
plan's `question` is a string. -/
def runRound (current_url : JVal) (elapsed : Rat) (env : RoundEnv) :
    RoundResult × RoundTrace :=
  if 170 < elapsed then (.timedOut, {}) else
  let page_context := env.scrapeResult
  if pyStartsWith page_context "Error:" then
    (.scrapeFailed, { fetchCalled := true })
  else
    let plan := get_plan_from_llm env.planLLM
    if dictHasKey plan "error" then
      (.planFailed, { fetchCalled := true, planCalled := true })
    else
      let question := dictGet plan "question"
      let data_url := dictGet plan "data_url"
      let submit_url := dictGet plan "submit_url"
      match resolveStep current_url data_url with
      | none => (.exnCaught, { fetchCalled := true, planCalled := true })
      | some data_url1 =>
        match resolveStep current_url submit_url with
        | none =>
          (.exnCaught,
            { fetchCalled := true, planCalled := true,
              resolvedDataUrl := optStr data_url1 })
        | some submit_url1 =>
          let acq := dataAcquisition page_context data_url1 env
          let tr : RoundTrace :=
            { fetchCalled := true, planCalled := true,
              resolvedDataUrl := optStr data_url1,
              resolvedSubmitUrl := optStr submit_url1,
              downloadUrl := acq.1,
              dataContext := some acq.2,
              answerCalled := true }
          match question with
          | some (.jstr _) =>
            match submit_url1 with
            | some (.jstr s) =>
              match env.submitResult with
              | .error _ =>
                (.exnCaught, { tr with submitTarget := some s })
              | .ok result_data =>
                (.continued (dictGet result_data "url"),
                  { tr with submitTarget := some s })
            | _ => (.exnCaught, tr)
          | _ => (.exnCaught, tr)

/-- Final outcome of a run. -/
inductive LoopOutcome where
  /-- `while current_url:` found a falsy URL: normal termination
  (`--- Quiz Run Finished ---`). -/
  | finished
  | timedOut
  | scrapeFailed
  | planFailed
  /-- The outer `except` fired; `current_url = None` ends the loop. -/
  | errorCaught
  /-- The supplied per-round environment list ran out while the loop
  would have continued (model artefact: the real loop is unbounded). -/
  | outOfFuel
deriving DecidableEq

/-- The `while current_url:` loop, consuming one `(elapsed, env)` pair
per iteration. -/
def runLoop (current_url : JVal) :
    List (Rat × RoundEnv) → List RoundTrace × LoopOutcome
  | [] => if current_url.truthy then ([], .outOfFuel) else ([], .finished)
  | (elapsed, env) :: rest =>
    if current_url.truthy then
      match runRound current_url elapsed env with
      | (.timedOut, tr) => ([tr], .timedOut)
      | (.scrapeFailed, tr) => ([tr], .scrapeFailed)
      | (.planFailed, tr) => ([tr], .planFailed)
      | (.exnCaught, tr) => ([tr], .errorCaught)
      | (.continued next, tr) =>
        let nextUrl := match next with
          | some v => v
          | none => JVal.jnull
        let t := runLoop nextUrl rest
        (tr :: t.1, t.2)
    else ([], .finished)


/-- A benign per-round environment used by concrete witnesses: a clean
page, a plan with a question and a relative submit URL and no data file,
a numeric answer, and a correct submission with no follow-up URL. -/
def sampleEnv : RoundEnv :=
  { scrapeResult := "<html>Q. Get the secret code</html>"
    planLLM := .ok [("question", .jstr "Q. Get the secret code from this page."),
                    ("data_url", .jnull), ("submit_url", .jstr "/submit"),
                    ("analysis_plan", .jstr "copy")]
    download := .error "unused"
    pdfExtract := .error "unused"
    csvExtract := .error "unused"
    answerLLM := .ok "29172"
    submitResult := .ok [("correct", .jbool true)] }

/-- A per-round environment with a relative CSV data URL, used by concrete
witnesses. -/
def sampleEnvCsv : RoundEnv :=
  { scrapeResult := "<html>CSV file Cutoff: 100</html>"
    planLLM := .ok [("question", .jstr "CSV file Cutoff: 100"),
                    ("data_url", .jstr "data.csv"), ("submit_url", .jstr "/submit")]
    download := .ok { status := 200, content := "10,200,50,300" }
    pdfExtract := .error "unused"
    csvExtract := .ok "10 200 50 300"
    answerLLM := .ok "500"
    submitResult := .ok [("correct", .jbool true),
                         ("url", .jstr "https://quiz/next")] }

/-! # Theorems

## List toolkit for the `urllib` model -/

theorem splitFirst_of_not_mem {sep : Char} {l : List Char} (h : sep ∉ l) :
    splitFirst sep l = none := by
  induction l with
  | nil => rfl
  | cons c t ih =>
    simp only [List.mem_cons, not_or] at h
    have hc : ¬ (c = sep) := fun hh => h.1 hh.symm
    simp only [splitFirst, beq_iff_eq, hc, if_false]
    rw [ih h.2]

theorem not_mem_of_splitFirst_eq_none {sep : Char} {l : List Char}
    (h : splitFirst sep l = none) : sep ∉ l := by
  induction l with
  | nil => simp
  | cons c t ih =>
    by_cases hc : c = sep
    · subst hc; simp [splitFirst] at h
    · simp only [splitFirst, beq_iff_eq, hc, if_false] at h
      rcases hs : splitFirst sep t with _ | ⟨a, b⟩
      · simp only [List.mem_cons, not_or]
        exact ⟨fun hh => hc hh.symm, ih hs⟩
      · rw [hs] at h; simp at h

theorem splitFirst_eq_some {sep : Char} {l a b : List Char}
    (h : splitFirst sep l = some (a, b)) : l = a ++ sep :: b ∧ sep ∉ a := by
  induction l generalizing a with
  | nil => simp [splitFirst] at h
  | cons c t ih =>
    by_cases hc : c = sep
    · subst hc
      simp [splitFirst] at h
      obtain ⟨ha, hb⟩ := h
      subst ha; subst hb
      simp
    · simp only [splitFirst, beq_iff_eq, if_neg hc] at h
      rcases hs : splitFirst sep t with _ | ⟨p, q⟩
      · simp [hs] at h
      · simp [hs] at h
        obtain ⟨ha, hb⟩ := h
        subst hb
        obtain ⟨h1, h2⟩ := ih hs
        subst ha
        constructor
        · simp [h1]
        · simp only [List.mem_cons, not_or]
          exact ⟨fun hh => hc hh.symm, h2⟩

theorem splitFirst_append {sep : Char} {a : List Char} (b : List Char)
    (h : sep ∉ a) :
    splitFirst sep (a ++ b) =
      (splitFirst sep b).map (fun pq => (a ++ pq.1, pq.2)) := by
  induction a with
  | nil => rcases hs : splitFirst sep b with _ | ⟨p, q⟩ <;> simp [hs]
  | cons c t ih =>
    simp only [List.mem_cons, not_or] at h
    have hc : ¬ (c = sep) := fun hh => h.1 hh.symm
    have hr := ih h.2
    simp only [List.cons_append, splitFirst, beq_iff_eq, hc, if_false,
      List.append_eq]
    rw [hr]
    rcases hs : splitFirst sep b with _ | ⟨p, q⟩ <;> simp [hs]

theorem splitFirst_cons_self (sep : Char) (b : List Char) :
    splitFirst sep (sep :: b) = some ([], b) := by
  simp [splitFirst]

theorem splitFirst_append_cons_self {sep : Char} {a : List Char}
    (b : List Char) (h : sep ∉ a) :
    splitFirst sep (a ++ sep :: b) = some (a, b) := by
  rw [splitFirst_append _ h, splitFirst_cons_self]
  simp

theorem takeWhile_all {p : Char → Bool} {l : List Char}
    (h : ∀ x ∈ l, p x = true) : l.takeWhile p = l := by
  induction l with
  | nil => rfl
  | cons c t ih =>
    simp only [List.takeWhile_cons, h c (by simp), if_true]
    rw [ih (fun x hx => h x (by simp [hx]))]

theorem takeWhile_append_all {p : Char → Bool} {a : List Char}
    (b : List Char) (ha : ∀ x ∈ a, p x = true) :
    (a ++ b).takeWhile p = a ++ b.takeWhile p := by
  induction a with
  | nil => simp
  | cons c t ih =>
    simp only [List.cons_append, List.takeWhile_cons, ha c (by simp), if_true]
    rw [ih (fun x hx => ha x (by simp [hx]))]

theorem takeWhile_append_stop {p : Char → Bool} {c : Char} {a : List Char}
    (b : List Char) (hc : p c = false) :
    (a ++ c :: b).takeWhile p = a.takeWhile p := by
  induction a with
  | nil => simp [List.takeWhile_cons, hc]
  | cons x t ih =>
    simp only [List.cons_append, List.takeWhile_cons]
    cases hx : p x <;> simp [ih]

theorem span_append {p : Char → Bool} {a b : List Char}
    (ha : ∀ x ∈ a, p x = true)
    (hb : b = [] ∨ ∃ c t, b = c :: t ∧ p c = false) :
    (a ++ b).takeWhile p = a ∧ (a ++ b).dropWhile p = b := by
  induction a with
  | nil =>
    rcases hb with hb | ⟨c, t, hb, hc⟩
    · subst hb; simp
    · subst hb; simp [List.takeWhile_cons, List.dropWhile_cons, hc]
  | cons x t ih =>
    have hx : p x = true := ha x (by simp)
    have := ih (fun y hy => ha y (by simp [hy]))
    simp only [List.cons_append, List.takeWhile_cons, List.dropWhile_cons, hx,
      this.1, this.2]
    simp

theorem mem_lastSeg {l : List Char} {c : Char} (h : c ∈ lastSeg l) : c ∈ l := by
  simp only [lastSeg, List.mem_reverse] at h
  have := List.mem_takeWhile_imp h
  have h2 : c ∈ l.reverse := (l.reverse.takeWhile_sublist _).mem h
  simpa using h2

theorem lastSeg_no_slash {l : List Char} : '/' ∉ lastSeg l := by
  intro h
  simp only [lastSeg, List.mem_reverse] at h
  have := List.mem_takeWhile_imp h
  simp at this

theorem not_beq_of_not_mem {sep x : Char} {b : List Char} (h : sep ∉ b)
    (hx : x ∈ b) : (!(x == sep)) = true := by
  simp only [Bool.not_eq_eq_eq_not, Bool.not_true, beq_eq_false_iff_ne, ne_eq]
  exact fun hh => h (hh ▸ hx)

theorem lastSeg_decomp {a b : List Char} (h : '/' ∉ b) :
    lastSeg (a ++ '/' :: b) = b := by
  simp only [lastSeg, List.reverse_append, List.reverse_cons]
  rw [List.append_assoc, List.singleton_append,
    takeWhile_append_stop _ (by simp),
    takeWhile_all (fun x hx =>
      not_beq_of_not_mem h (List.mem_reverse.mp hx)),
    List.reverse_reverse]

theorem lastSeg_all_no_slash {l : List Char} (h : '/' ∉ l) : lastSeg l = l := by
  simp only [lastSeg]
  rw [takeWhile_all (fun x hx =>
    not_beq_of_not_mem h (List.mem_reverse.mp hx)), List.reverse_reverse]

theorem lastSeg_cons_slash (l : List Char) : lastSeg ('/' :: l) = lastSeg l := by
  simp only [lastSeg, List.reverse_cons]
  rw [takeWhile_append_stop _ (by simp)]

theorem splitLast_eq_some {sep : Char} {l a b : List Char}
    (h : splitLast sep l = some (a, b)) : l = a ++ sep :: b ∧ sep ∉ b := by
  simp only [splitLast] at h
  rcases hs : splitFirst sep l.reverse with _ | ⟨x, y⟩
  · rw [hs] at h; simp at h
  · rw [hs] at h
    simp only [Option.some.injEq, Prod.mk.injEq] at h
    obtain ⟨hdec, hnm⟩ := splitFirst_eq_some hs
    obtain ⟨ha, hb⟩ := h
    subst ha; subst hb
    constructor
    · have := congrArg List.reverse hdec
      simpa [List.reverse_append] using this
    · simpa using hnm

theorem splitLast_eq_none {sep : Char} {l : List Char}
    (h : splitLast sep l = none) : sep ∉ l := by
  simp only [splitLast] at h
  rcases hs : splitFirst sep l.reverse with _ | ⟨x, y⟩
  · have := not_mem_of_splitFirst_eq_none hs
    simpa using this
  · rw [hs] at h; simp at h

theorem splitLast_append_right {sep : Char} {a : List Char} (s : List Char)
    (hs : sep ∉ s) :
    splitLast sep (a ++ s) =
      (splitLast sep a).map (fun pq => (pq.1, pq.2 ++ s)) := by
  simp only [splitLast, List.reverse_append]
  rw [splitFirst_append _ (by simpa using hs)]
  rcases hx : splitFirst sep a.reverse with _ | ⟨x, y⟩ <;> simp

theorem lastSeg_of_splitLast_some {l a b : List Char}
    (h : splitLast '/' l = some (a, b)) : lastSeg l = b := by
  obtain ⟨hd, hb⟩ := splitLast_eq_some h
  rw [hd, lastSeg_decomp hb]

theorem splitAllChar_ne_nil {sep : Char} {l : List Char} :
    splitAllChar sep l ≠ [] := by
  cases l with
  | nil => simp [splitAllChar]
  | cons c t =>
    simp only [splitAllChar]
    by_cases h : c = sep
    · simp [h]
    · simp only [beq_iff_eq, h, if_false]
      rcases hs : splitAllChar sep t with _ | ⟨x, y⟩ <;> simp

theorem splitAllChar_mem_spec {sep : Char} {l : List Char} {s : List Char}
    (hs : s ∈ splitAllChar sep l) : (∀ c ∈ s, c ∈ l) ∧ sep ∉ s := by
  induction l generalizing s with
  | nil =>
    simp only [splitAllChar, List.mem_singleton] at hs
    subst hs; simp
  | cons c t ih =>
    by_cases hc : c = sep
    · subst hc
      simp only [splitAllChar, beq_self_eq_true, if_true, List.mem_cons] at hs
      rcases hs with hs | hs
      · subst hs; simp
      · have := ih hs
        exact ⟨fun x hx => by simp [this.1 x hx], this.2⟩
    · simp only [splitAllChar, beq_iff_eq, hc, if_false] at hs
      rcases ht : splitAllChar sep t with _ | ⟨x, y⟩
      · exact absurd ht splitAllChar_ne_nil
      · rw [ht] at hs
        rcases List.mem_cons.mp hs with h1 | h1
        · subst h1
          have hx : x ∈ splitAllChar sep t := by rw [ht]; simp
          have := ih hx
          constructor
          · intro cc hcc
            rcases List.mem_cons.mp hcc with h2 | h2
            · simp [h2]
            · simp [this.1 cc h2]
          · simp only [List.mem_cons, not_or]
            exact ⟨fun hh => hc hh.symm, this.2⟩
        · have hy : s ∈ splitAllChar sep t := by rw [ht]; simp [h1]
          have := ih hy
          exact ⟨fun cc hcc => by simp [this.1 cc hcc], this.2⟩

theorem splitAllChar_eq_splitFirst {sep : Char} (l : List Char) :
    splitAllChar sep l =
      match splitFirst sep l with
      | none => [l]
      | some (a, b) => a :: splitAllChar sep b := by
  induction l with
  | nil => rfl
  | cons c t ih =>
    by_cases hc : c = sep
    · subst hc; simp [splitAllChar, splitFirst]
    · have hC : splitAllChar sep (c :: t) =
          match splitAllChar sep t with
          | h :: t2 => (c :: h) :: t2
          | [] => [[c]] := by
        simp [splitAllChar, hc]
      rcases hs : splitFirst sep t with _ | ⟨a, b⟩
      · have ih2 : splitAllChar sep t = [t] := by rw [ih, hs]
        rw [hC, ih2]
        simp only [splitFirst, beq_iff_eq, hc, if_false, hs]
      · have ih2 : splitAllChar sep t = a :: splitAllChar sep b := by
          rw [ih, hs]
        rw [hC, ih2]
        simp only [splitFirst, beq_iff_eq, hc, if_false, hs]

/-- The last element of a Python `split(sep)` is the text after the last
separator. -/
theorem splitAllChar_getLast? {sep : Char} (l : List Char) :
    (splitAllChar sep l).getLast? =
      some ((l.reverse.takeWhile (fun c => !(c == sep))).reverse) := by
  suffices H : ∀ (n : Nat) (l : List Char), l.length ≤ n →
      (splitAllChar sep l).getLast? =
        some ((l.reverse.takeWhile (fun c => !(c == sep))).reverse) from
    H l.length l le_rfl
  intro n
  induction n with
  | zero =>
    intro l hl
    have : l = [] := List.length_eq_zero.mp (Nat.le_zero.mp hl)
    subst this
    rfl
  | succ n ih =>
    intro l hl
    rw [splitAllChar_eq_splitFirst]
    rcases hs : splitFirst sep l with _ | ⟨a, b⟩
    · have hm := not_mem_of_splitFirst_eq_none hs
      rw [takeWhile_all (fun x hx =>
        not_beq_of_not_mem hm (List.mem_reverse.mp hx))]
      simp
    · obtain ⟨hd, _⟩ := splitFirst_eq_some hs
      have hlen : b.length ≤ n := by
        have : l.length = a.length + (b.length + 1) := by
          rw [hd]; simp [List.length_append]
        omega
      have hrec := ih b hlen
      rcases hS : splitAllChar sep b with _ | ⟨x, y⟩
      · exact absurd hS splitAllChar_ne_nil
      · rw [hS] at hrec
        show (a :: splitAllChar sep b).getLast? = _
        rw [hS, List.getLast?_cons_cons, hrec, hd, List.reverse_append,
          List.reverse_cons, List.append_assoc, List.singleton_append,
          takeWhile_append_stop _ (by simp)]

theorem mem_joinSlash {L : List (List Char)} {c : Char}
    (hL : ∀ s ∈ L, c ∉ s) (hc : ¬ c = '/') : c ∉ joinSlash L := by
  induction L with
  | nil => simp [joinSlash]
  | cons x t ih =>
    cases t with
    | nil => simpa [joinSlash] using hL x (by simp)
    | cons y u =>
      simp only [joinSlash, List.mem_append, List.mem_cons, not_or]
      exact ⟨hL x (by simp), fun hh => hc hh,
        ih (fun s hs => hL s (by simp [List.mem_cons.mp hs]))⟩

theorem resolveSegs_mem {s : List Char} {L acc : List (List Char)}
    (h : s ∈ L.foldl
      (fun acc seg =>
        if seg = ['.', '.'] then acc.dropLast
        else if seg = ['.'] then acc else acc ++ [seg]) acc) :
    s ∈ acc ∨ s ∈ L := by
  induction L generalizing acc with
  | nil => simp only [List.foldl_nil] at h; exact Or.inl h
  | cons x t ih =>
    simp only [List.foldl_cons] at h
    rcases ih h with h1 | h1
    · by_cases hx : x = ['.', '.']
      · rw [if_pos hx] at h1
        exact Or.inl ((List.dropLast_prefix acc).subset h1)
      · rw [if_neg hx] at h1
        by_cases hx2 : x = ['.']
        · rw [if_pos hx2] at h1; exact Or.inl h1
        · rw [if_neg hx2] at h1
          rcases List.mem_append.mp h1 with h2 | h2
          · exact Or.inl h2
          · simp only [List.mem_singleton] at h2
            subst h2; exact Or.inr (by simp)
    · exact Or.inr (by simp [h1])

theorem resolveSegs_subset {s : List Char} {L : List (List Char)}
    (h : s ∈ resolveSegs L) : s ∈ L := by
  rcases resolveSegs_mem h with h1 | h1
  · simp at h1
  · exact h1

theorem resolveSegs_concat {L : List (List Char)} {x : List Char}
    (h1 : x ≠ ['.', '.']) (h2 : x ≠ ['.']) :
    resolveSegs (L ++ [x]) = resolveSegs L ++ [x] := by
  simp only [resolveSegs, List.foldl_concat]
  rw [if_neg h1, if_neg h2]

theorem filterMiddle_subset {L : List (List Char)} {s : List Char}
    (h : s ∈ filterMiddle L) : s ∈ L := by
  match L with
  | [] => simp [filterMiddle] at h
  | [x] => simpa [filterMiddle] using h
  | x :: y :: u =>
    simp only [filterMiddle] at h
    rcases List.mem_cons.mp h with h1 | h1
    · simp [h1]
    · rcases List.mem_append.mp h1 with h2 | h2
      · have h3 := List.mem_of_mem_filter h2
        have h4 := (List.dropLast_prefix (y :: u)).subset h3
        simp [List.mem_cons.mp h4]
      · simp only [List.mem_singleton] at h2
        subst h2
        have h5 : (y :: u).getLastD [] = (y :: u).getLast (by simp) := by
          rw [List.getLastD_eq_getLast?, List.getLast?_eq_getLast _ (by simp)]
          rfl
        rw [h5]
        simp [List.mem_cons, List.getLast_mem]

theorem filterMiddle_ne_nil {L : List (List Char)} (h : L ≠ []) :
    filterMiddle L ≠ [] := by
  match L with
  | [x] => simp [filterMiddle]
  | x :: y :: u => simp [filterMiddle]

theorem filterMiddle_getLast? {L : List (List Char)} (h : L ≠ []) :
    (filterMiddle L).getLast? = L.getLast? := by
  match L with
  | [x] => rfl
  | x :: y :: u =>
    simp only [filterMiddle]
    rw [show (x :: ((y :: u).dropLast.filter (fun s => !s.isEmpty) ++
        [(y :: u).getLastD []])) =
        (x :: (y :: u).dropLast.filter (fun s => !s.isEmpty)) ++
          [(y :: u).getLastD []] by simp,
      List.getLast?_concat, List.getLast?_cons_cons,
      List.getLastD_eq_getLast?, List.getLast?_eq_getLast _ (by simp)]
    rfl

/-- `"https"` as an explicit character list (syntactic `cons` form, so
matches reduce). -/
def httpsL : List Char := ['h', 't', 't', 'p', 's']

/-- The claims' concrete base URL `https://h/p/q`, as a character list. -/
def baseUrlData : List Char := "https://h/p/q".data

theorem urlsplitL_eq (url d : List Char) :
    urlsplitL url d =
      ⟨(splitScheme url d).1,
       (splitNetlocStep (splitScheme url d).2).1,
       (splitQuery (splitFragment (splitNetlocStep (splitScheme url d).2).2).1).1,
       (splitQuery (splitFragment (splitNetlocStep (splitScheme url d).2).2).1).2,
       (splitFragment (splitNetlocStep (splitScheme url d).2).2).2⟩ := rfl

theorem splitScheme_https (rest : List Char) (d : List Char) :
    splitScheme (httpsL ++ ':' :: rest) d = (httpsL, rest) := by
  simp only [httpsL, splitScheme]
  rw [splitFirst_append_cons_self _ (by decide)]
  rfl

theorem splitNetlocStep_slashes (x : List Char) :
    splitNetlocStep ('/' :: '/' :: x) =
      (x.takeWhile notDelim, x.dropWhile notDelim) := by
  simp [splitNetlocStep]

theorem splitFragment_of_not_mem {l : List Char} (h : '#' ∉ l) :
    splitFragment l = (l, []) := by
  simp [splitFragment, splitFirst_of_not_mem h]

theorem splitFragment_append {a : List Char} (b : List Char) (h : '#' ∉ a) :
    splitFragment (a ++ '#' :: b) = (a, b) := by
  simp [splitFragment, splitFirst_append_cons_self _ h]

theorem splitQuery_of_not_mem {l : List Char} (h : '?' ∉ l) :
    splitQuery l = (l, []) := by
  simp [splitQuery, splitFirst_of_not_mem h]

theorem splitQuery_append {a : List Char} (b : List Char) (h : '?' ∉ a) :
    splitQuery (a ++ '?' :: b) = (a, b) := by
  simp [splitQuery, splitFirst_append_cons_self _ h]

theorem splitFragment_no_hash (l : List Char) : '#' ∉ (splitFragment l).1 := by
  simp only [splitFragment]
  rcases hs : splitFirst '#' l with _ | ⟨a, b⟩
  · exact not_mem_of_splitFirst_eq_none hs
  · exact (splitFirst_eq_some hs).2

theorem splitFragment_decomp (l : List Char) :
    (splitFragment l).1 = l ∧ (splitFragment l).2 = [] ∨
      l = (splitFragment l).1 ++ '#' :: (splitFragment l).2 := by
  simp only [splitFragment]
  rcases hs : splitFirst '#' l with _ | ⟨a, b⟩
  · exact Or.inl ⟨rfl, rfl⟩
  · exact Or.inr (splitFirst_eq_some hs).1

theorem splitQuery_no_qm (l : List Char) : '?' ∉ (splitQuery l).1 := by
  simp only [splitQuery]
  rcases hs : splitFirst '?' l with _ | ⟨a, b⟩
  · exact not_mem_of_splitFirst_eq_none hs
  · exact (splitFirst_eq_some hs).2

theorem splitQuery_decomp (l : List Char) :
    (splitQuery l).1 = l ∧ (splitQuery l).2 = [] ∨
      l = (splitQuery l).1 ++ '?' :: (splitQuery l).2 := by
  simp only [splitQuery]
  rcases hs : splitFirst '?' l with _ | ⟨a, b⟩
  · exact Or.inl ⟨rfl, rfl⟩
  · exact Or.inr (splitFirst_eq_some hs).1

theorem urlsplit_path_delims (url d : List Char) :
    '?' ∉ (urlsplitL url d).path ∧ '#' ∉ (urlsplitL url d).path ∧
      '#' ∉ (urlsplitL url d).query := by
  rw [urlsplitL_eq]
  refine ⟨splitQuery_no_qm _, ?_, ?_⟩
  · have h1 := splitFragment_no_hash (splitNetlocStep (splitScheme url d).2).2
    rcases splitQuery_decomp (splitFragment (splitNetlocStep (splitScheme url d).2).2).1
      with ⟨he, _⟩ | hd2
    · rw [he]; exact h1
    · intro hc
      exact h1 (hd2 ▸ (List.mem_append.mpr (Or.inl hc)))
  · have h1 := splitFragment_no_hash (splitNetlocStep (splitScheme url d).2).2
    rcases splitQuery_decomp (splitFragment (splitNetlocStep (splitScheme url d).2).2).1
      with ⟨_, he⟩ | hd2
    · rw [he]; simp
    · intro hc
      exact h1 (hd2 ▸ (List.mem_append.mpr (Or.inr (by simp [hc]))))

theorem urlsplit_netloc_notDelim (url d : List Char) :
    ∀ c ∈ (urlsplitL url d).netloc, notDelim c = true := by
  rw [urlsplitL_eq]
  intro c hc
  simp only [splitNetlocStep] at hc
  by_cases h2 : ((splitScheme url d).2).take 2 = ['/', '/']
  · rw [if_pos h2] at hc; exact List.mem_takeWhile_imp hc
  · rw [if_neg h2] at hc; simp at hc

theorem dropWhile_head_not {p : Char → Bool} {l : List Char} {c : Char}
    {t : List Char} (h : l.dropWhile p = c :: t) : p c = false := by
  induction l with
  | nil => simp at h
  | cons x xs ih =>
    rw [List.dropWhile_cons] at h
    by_cases hx : p x = true
    · rw [if_pos hx] at h; exact ih h
    · rw [if_neg hx] at h
      cases h
      simpa using hx

theorem splitFirst_cons_ne {sep c : Char} (t : List Char) (h : ¬ c = sep) :
    splitFirst sep (c :: t) =
      (splitFirst sep t).map (fun pq => (c :: pq.1, pq.2)) := by
  simp only [splitFirst, beq_iff_eq, h, if_false]
  rcases hs : splitFirst sep t with _ | ⟨p, q⟩ <;> simp

theorem splitFragment_cons_head {c : Char} {t : List Char} (h : ¬ c = '#') :
    ∃ x, (splitFragment (c :: t)).1 = c :: x := by
  simp only [splitFragment, splitFirst_cons_ne t h]
  rcases hs : splitFirst '#' t with _ | ⟨p, q⟩
  · exact ⟨t, rfl⟩
  · exact ⟨p, rfl⟩

theorem splitQuery_cons_head {c : Char} {t : List Char} (h : ¬ c = '?') :
    ∃ x, (splitQuery (c :: t)).1 = c :: x := by
  simp only [splitQuery, splitFirst_cons_ne t h]
  rcases hs : splitFirst '?' t with _ | ⟨p, q⟩
  · exact ⟨t, rfl⟩
  · exact ⟨p, rfl⟩

theorem urlsplit_netloc_path_shape (url d : List Char)
    (h : (urlsplitL url d).netloc ≠ []) :
    (urlsplitL url d).path = [] ∨ (urlsplitL url d).path.take 1 = ['/'] := by
  rw [urlsplitL_eq] at h ⊢
  simp only [splitNetlocStep] at h ⊢
  by_cases h2 : ((splitScheme url d).2).take 2 = ['/', '/']
  · rw [if_pos h2] at h ⊢
    dsimp only at h ⊢
    rcases hr : (((splitScheme url d).2).drop 2).dropWhile notDelim with _ | ⟨c, t⟩
    · left; rfl
    · have hc := dropWhile_head_not hr
      simp only [notDelim, Bool.not_eq_false', Bool.or_eq_true, beq_iff_eq] at hc
      rcases hc with (hc | hc) | hc
      · subst hc
        obtain ⟨x, hx⟩ := splitFragment_cons_head (t := t) (c := '/') (by decide)
        rw [hx]
        obtain ⟨y, hy⟩ := splitQuery_cons_head (t := x) (c := '/') (by decide)
        rw [hy]
        right
        rfl
      · subst hc
        obtain ⟨x, hx⟩ := splitFragment_cons_head (t := t) (c := '?') (by decide)
        rw [hx]
        have hq : splitQuery ('?' :: x) = ([], x) := by
          simp [splitQuery, splitFirst_cons_self]
        rw [hq]
        left
        rfl
      · subst hc
        have hf : splitFragment ('#' :: t) = ([], t) := by
          simp [splitFragment, splitFirst_cons_self]
        rw [hf]
        left
        rfl
  · rw [if_neg h2] at h
    simp at h

theorem splitParamsL_eq1 {P pre post a b : List Char}
    (hL : splitLast '/' P = some (pre, post))
    (hS : splitFirst ';' post = some (a, b)) :
    splitParamsL P = (pre ++ '/' :: a, b) := by
  simp only [splitParamsL, hL, hS]

theorem splitParamsL_eq2 {P pre post : List Char}
    (hL : splitLast '/' P = some (pre, post))
    (hS : splitFirst ';' post = none) :
    splitParamsL P = (P, []) := by
  simp only [splitParamsL, hL, hS]

theorem splitParamsL_eq3 {P a b : List Char}
    (hL : splitLast '/' P = none)
    (hS : splitFirst ';' P = some (a, b)) :
    splitParamsL P = (a, b) := by
  simp only [splitParamsL, hL, hS]

theorem splitParamsL_eq4 {P : List Char}
    (hL : splitLast '/' P = none)
    (hS : splitFirst ';' P = none) :
    splitParamsL P = (P, []) := by
  simp only [splitParamsL, hL, hS]

theorem splitParamsL_spec (P : List Char) :
    ';' ∉ lastSeg (splitParamsL P).1 ∧
    '/' ∉ (splitParamsL P).2 ∧
    ((splitParamsL P).1 = P ∧ (splitParamsL P).2 = [] ∨
      P = (splitParamsL P).1 ++ ';' :: (splitParamsL P).2) := by
  rcases hL : splitLast '/' P with _ | ⟨pre, post⟩
  · have hnp := splitLast_eq_none hL
    rcases hS : splitFirst ';' P with _ | ⟨a, b⟩
    · rw [splitParamsL_eq4 hL hS]
      refine ⟨?_, by simp, Or.inl ⟨rfl, rfl⟩⟩
      exact fun hc => (not_mem_of_splitFirst_eq_none hS) (mem_lastSeg hc)
    · rw [splitParamsL_eq3 hL hS]
      obtain ⟨hd, hna⟩ := splitFirst_eq_some hS
      refine ⟨?_, ?_, Or.inr hd⟩
      · have hA : '/' ∉ a := fun hc =>
          hnp (hd ▸ List.mem_append.mpr (Or.inl hc))
        rw [lastSeg_all_no_slash hA]
        exact hna
      · intro hc
        exact hnp (hd ▸ List.mem_append.mpr (Or.inr (by simp [hc])))
  · obtain ⟨hdP, hnpost⟩ := splitLast_eq_some hL
    rcases hS : splitFirst ';' post with _ | ⟨a, b⟩
    · rw [splitParamsL_eq2 hL hS]
      have hns := not_mem_of_splitFirst_eq_none hS
      refine ⟨?_, by simp, Or.inl ⟨rfl, rfl⟩⟩
      rw [hdP, lastSeg_decomp hnpost]
      exact hns
    · rw [splitParamsL_eq1 hL hS]
      obtain ⟨hdpost, hna⟩ := splitFirst_eq_some hS
      have hA : '/' ∉ a := fun hc =>
        hnpost (hdpost ▸ List.mem_append.mpr (Or.inl hc))
      have hB : '/' ∉ b := fun hc =>
        hnpost (hdpost ▸ List.mem_append.mpr (Or.inr (by simp [hc])))
      refine ⟨?_, hB, Or.inr ?_⟩
      · rw [lastSeg_decomp hA]
        exact hna
      · rw [hdP, hdpost]
        simp

theorem urlparse_fields (url d : List Char) :
    (urlparseL url d).scheme = (urlsplitL url d).scheme ∧
    (urlparseL url d).netloc = (urlsplitL url d).netloc ∧
    (urlparseL url d).query = (urlsplitL url d).query ∧
    (urlparseL url d).fragment = (urlsplitL url d).fragment := by
  simp only [urlparseL]
  split <;> exact ⟨rfl, rfl, rfl, rfl⟩

theorem urlparse_path_decomp (url d : List Char) :
    (urlparseL url d).path = (urlsplitL url d).path ∧
        (urlparseL url d).params = [] ∨
      (urlsplitL url d).path =
        (urlparseL url d).path ++ ';' :: (urlparseL url d).params := by
  simp only [urlparseL]
  split
  · have := (splitParamsL_spec (urlsplitL url d).path).2.2
    rcases this with ⟨h1, h2⟩ | h1
    · exact Or.inl ⟨h1, h2⟩
    · exact Or.inr h1
  · exact Or.inl ⟨rfl, rfl⟩

theorem urlparse_params_no_slash (url d : List Char) :
    '/' ∉ (urlparseL url d).params := by
  simp only [urlparseL]
  split
  · exact (splitParamsL_spec (urlsplitL url d).path).2.1
  · simp

theorem urlparse_lastSeg_path (url d : List Char)
    (h : (urlparseL url d).scheme ∈ usesParams) :
    ';' ∉ lastSeg (urlparseL url d).path := by
  have hf := (urlparse_fields url d).1
  by_cases hc : (urlsplitL url d).scheme ∈ usesParams ∧
      ';' ∈ (urlsplitL url d).path
  · simp only [urlparseL, if_pos hc]
    exact (splitParamsL_spec (urlsplitL url d).path).1
  · simp only [urlparseL, if_neg hc]
    rcases not_and_or.mp hc with hc1 | hc1
    · exact absurd (hf ▸ h) hc1
    · exact fun hm => hc1 (mem_lastSeg hm)

theorem base_parse_eq :
    urlparseL baseUrlData [] =
      ⟨httpsL, ['h'], ['/', 'p', '/', 'q'], [], [], []⟩ := by
  decide

theorem normPath_shape (pc : List Char) :
    normPath pc = [] ∨ ∃ t, normPath pc = '/' :: t := by
  simp only [normPath]
  rcases pc with _ | ⟨c, cs⟩
  · simp
  · by_cases hc : c = '/'
    · subst hc
      rw [if_neg (by simp)]
      exact Or.inr ⟨cs, rfl⟩
    · rw [if_pos ⟨by simp, by simp [List.take, hc]⟩]
      exact Or.inr ⟨c :: cs, rfl⟩

theorem mem_pathParams {c : Char} {p pr : List Char}
    (h : c ∈ pathParams p pr) : c ∈ p ∨ c = ';' ∨ c ∈ pr := by
  simp only [pathParams] at h
  by_cases hpr : pr = []
  · rw [if_neg (by simp [hpr])] at h
    exact Or.inl h
  · rw [if_pos hpr] at h
    rcases List.mem_append.mp h with h1 | h1
    · exact Or.inl h1
    · rcases List.mem_cons.mp h1 with h2 | h2
      · exact Or.inr (Or.inl h2)
      · exact Or.inr (Or.inr h2)

theorem mem_normPath {c : Char} {pc : List Char}
    (h : c ∈ normPath pc) : c = '/' ∨ c ∈ pc := by
  simp only [normPath] at h
  split at h
  · rcases List.mem_cons.mp h with h1 | h1
    · exact Or.inl h1
    · exact Or.inr h1
  · exact Or.inr h

theorem urlunparseL_https (n p pr q f : List Char) (hn : n ≠ []) :
    urlunparseL httpsL n p pr q f =
      httpsL ++ ':' :: '/' :: '/' ::
        (n ++ normPath (pathParams p pr) ++ optQ q ++ optF f) := by
  simp only [urlunparseL, urlunsplitL, pathParams, normPath, optQ, optF]
  rw [if_pos (Or.inl hn), if_pos (show httpsL ≠ [] by decide)]
  by_cases hq : q = [] <;> by_cases hf : f = [] <;>
    simp [hq, hf, List.append_assoc]

theorem urlsplit_of_unparse (n p pr q f d : List Char)
    (hnd : ∀ c ∈ n, notDelim c = true)
    (hp1 : '?' ∉ p) (hp2 : '#' ∉ p)
    (hpr2 : '?' ∉ pr) (hpr3 : '#' ∉ pr)
    (hq : '#' ∉ q) :
    urlsplitL (httpsL ++ ':' :: '/' :: '/' ::
        (n ++ normPath (pathParams p pr) ++ optQ q ++ optF f)) d =
      ⟨httpsL, n, normPath (pathParams p pr), q, f⟩ := by
  have hnp2 : '#' ∉ normPath (pathParams p pr) := by
    intro hc
    rcases mem_normPath hc with h1 | h1
    · simp at h1
    · rcases mem_pathParams h1 with h2 | h2 | h2
      · exact hp2 h2
      · simp at h2
      · exact hpr3 h2
  have hnp1 : '?' ∉ normPath (pathParams p pr) := by
    intro hc
    rcases mem_normPath hc with h1 | h1
    · simp at h1
    · rcases mem_pathParams h1 with h2 | h2 | h2
      · exact hp1 h2
      · simp at h2
      · exact hpr2 h2
  rw [urlsplitL_eq, splitScheme_https]
  have hsuffix : normPath (pathParams p pr) ++ optQ q ++ optF f = [] ∨
      ∃ c t, normPath (pathParams p pr) ++ optQ q ++ optF f = c :: t ∧
        notDelim c = false := by
    rcases normPath_shape (pathParams p pr) with hnp | ⟨t, hnp⟩
    · rw [hnp]
      by_cases hqe : q = []
      · by_cases hfe : f = []
        · simp [optQ, optF, hqe, hfe]
        · right
          refine ⟨'#', f, ?_, by decide⟩
          simp [optQ, optF, hqe, hfe]
      · right
        refine ⟨'?', q ++ optF f, ?_, by decide⟩
        simp [optQ, hqe, List.append_assoc]
    · right
      refine ⟨'/', t ++ optQ q ++ optF f, ?_, by decide⟩
      rw [hnp]
      simp [List.append_assoc]
  have hspan := span_append (p := notDelim) (a := n)
    (b := normPath (pathParams p pr) ++ optQ q ++ optF f) hnd hsuffix
  rw [show n ++ normPath (pathParams p pr) ++ optQ q ++ optF f =
      n ++ (normPath (pathParams p pr) ++ optQ q ++ optF f) by
    simp [List.append_assoc]]
  rw [splitNetlocStep_slashes, hspan.1, hspan.2]
  have hfr : splitFragment (normPath (pathParams p pr) ++ optQ q ++ optF f) =
      (normPath (pathParams p pr) ++ optQ q, f) := by
    have hnoq : '#' ∉ normPath (pathParams p pr) ++ optQ q := by
      intro hc
      rcases List.mem_append.mp hc with h1 | h1
      · exact hnp2 h1
      · simp only [optQ] at h1
        by_cases hqe : q = []
        · rw [if_neg (by simp [hqe])] at h1; simp at h1
        · rw [if_pos hqe] at h1
          rcases List.mem_cons.mp h1 with h2 | h2
          · simp at h2
          · exact hq h2
    by_cases hfe : f = []
    · rw [show optF f = [] by simp [optF, hfe], List.append_nil,
        splitFragment_of_not_mem hnoq, hfe]
    · rw [show optF f = '#' :: f by simp [optF, hfe],
        splitFragment_append _ hnoq]
  rw [hfr]
  have hqr : splitQuery (normPath (pathParams p pr) ++ optQ q) =
      (normPath (pathParams p pr), q) := by
    by_cases hqe : q = []
    · rw [show optQ q = [] by simp [optQ, hqe], List.append_nil,
        splitQuery_of_not_mem hnp1, hqe]
    · rw [show optQ q = '?' :: q by simp [optQ, hqe],
        splitQuery_append _ hnp1]
  rw [hqr]

theorem absPath_props {p : List Char} (hp : p ≠ []) :
    (absPath p).take 1 = ['/'] ∧ absPath p ≠ [] := by
  simp only [absPath, if_neg hp]
  by_cases hc : p.take 1 ≠ ['/']
  · rw [if_pos hc]
    exact ⟨rfl, by simp⟩
  · rw [if_neg hc]
    exact ⟨not_not.mp hc, hp⟩

theorem lastSeg_absPath (p : List Char) : lastSeg (absPath p) = lastSeg p := by
  simp only [absPath]
  by_cases hp : p = []
  · simp [hp]
  · rw [if_neg hp]
    by_cases hc : p.take 1 ≠ ['/']
    · rw [if_pos hc, lastSeg_cons_slash]
    · rw [if_neg hc]

theorem mem_absPath {c : Char} {p : List Char} (h : c ∈ absPath p) :
    c = '/' ∨ c ∈ p := by
  simp only [absPath] at h
  by_cases hp : p = []
  · rw [if_pos hp] at h; simp at h
  · rw [if_neg hp] at h
    by_cases hc : p.take 1 ≠ ['/']
    · rw [if_pos hc] at h
      rcases List.mem_cons.mp h with h1 | h1
      · exact Or.inl h1
      · exact Or.inr h1
    · rw [if_neg hc] at h; exact Or.inr h

theorem normPath_pathParams {p pr : List Char} (hpe : p = [] → pr = []) :
    normPath (pathParams p pr) = pathParams (absPath p) pr := by
  by_cases hp : p = []
  · have hpr := hpe hp
    subst hp
    subst hpr
    simp [normPath, pathParams, absPath]
  · have htk : ∀ x : List Char, (p ++ x).take 1 = p.take 1 := by
      intro x
      rcases p with _ | ⟨c, cs⟩
      · simp at hp
      · simp
    by_cases hpr : pr = []
    · subst hpr
      simp only [pathParams, if_neg (by simp : ¬ ([] : List Char) ≠ [])]
      simp only [normPath, absPath, if_neg hp]
      by_cases hc : p.take 1 ≠ ['/']
      · rw [if_pos ⟨hp, hc⟩, if_pos hc]
      · rw [if_neg (fun hh => hc hh.2), if_neg hc]
    · simp only [pathParams, if_pos hpr]
      simp only [normPath, absPath, if_neg hp]
      by_cases hc : p.take 1 ≠ ['/']
      · rw [if_pos ⟨by simp, by rw [htk]; exact hc⟩, if_pos hc]
        simp
      · rw [if_neg (fun hh => hc (by rw [htk] at hh; exact hh.2)), if_neg hc]

theorem splitParams_pathParams {p pr : List Char}
    (hp : p ≠ []) (hpl : ';' ∉ lastSeg p) (hpr1 : '/' ∉ pr) :
    splitParamsL (pathParams (absPath p) pr) = (absPath p, pr) := by
  obtain ⟨htk, hne⟩ := absPath_props hp
  have hslash : '/' ∈ absPath p := by
    rcases hA : absPath p with _ | ⟨c, cs⟩
    · exact absurd hA hne
    · rw [hA] at htk
      have hcq : c = '/' := by simpa using htk
      simp [hcq]
  rcases hL0 : splitLast '/' (absPath p) with _ | ⟨x, y⟩
  · exact absurd hslash (splitLast_eq_none hL0)
  · have hy : y = lastSeg p := by
      have h1 := lastSeg_of_splitLast_some hL0
      rw [lastSeg_absPath] at h1
      exact h1.symm
    by_cases hpr : pr = []
    · subst hpr
      simp only [pathParams, if_neg (by simp : ¬ ([] : List Char) ≠ [])]
      exact splitParamsL_eq2 hL0 (splitFirst_of_not_mem (by rw [hy]; exact hpl))
    · simp only [pathParams, if_pos hpr]
      have hnm : '/' ∉ ';' :: pr := by
        intro hc
        rcases List.mem_cons.mp hc with h1 | h1
        · simp at h1
        · exact hpr1 h1
      have hL : splitLast '/' (absPath p ++ ';' :: pr) = some (x, y ++ ';' :: pr) := by
        rw [splitLast_append_right (';' :: pr) hnm, hL0]
        rfl
      have hS : splitFirst ';' (y ++ ';' :: pr) = some (y, pr) :=
        splitFirst_append_cons_self _ (by rw [hy]; exact hpl)
      rw [splitParamsL_eq1 hL hS]
      obtain ⟨hdec, _⟩ := splitLast_eq_some hL0
      rw [← hdec]

theorem urlparse_of_unparse (n p pr q f d : List Char)
    (hnd : ∀ c ∈ n, notDelim c = true)
    (hp1 : '?' ∉ p) (hp2 : '#' ∉ p) (hpl : ';' ∉ lastSeg p)
    (hpr1 : '/' ∉ pr) (hpr2 : '?' ∉ pr) (hpr3 : '#' ∉ pr)
    (hq : '#' ∉ q) (hpe : p = [] → pr = []) :
    urlparseL (httpsL ++ ':' :: '/' :: '/' ::
        (n ++ normPath (pathParams p pr) ++ optQ q ++ optF f)) d =
      ⟨httpsL, n, absPath p, pr, q, f⟩ := by
  simp only [urlparseL]
  rw [urlsplit_of_unparse n p pr q f d hnd hp1 hp2 hpr2 hpr3 hq]
  dsimp only
  rw [normPath_pathParams hpe]
  by_cases hp : p = []
  · have hpr := hpe hp
    subst hp
    subst hpr
    rw [if_neg (by simp [pathParams, absPath])]
    simp [pathParams, absPath]
  · by_cases hsc : ';' ∈ pathParams (absPath p) pr
    · rw [if_pos ⟨by decide, hsc⟩, splitParams_pathParams hp hpl hpr1]
    · rw [if_neg (fun hh => hsc hh.2)]
      have hpr : pr = [] := by
        by_contra hh
        exact hsc (by simp [pathParams, if_pos hh])
      subst hpr
      simp [pathParams]

theorem normPath_of_abs {l : List Char}
    (h : l = [] ∨ l.take 1 = ['/']) : normPath l = l := by
  simp only [normPath]
  rcases h with h | h
  · rw [if_neg (by simp [h])]
  · rw [if_neg (fun hh => hh.2 h)]

theorem normPath_absPath_stable {p pr : List Char} (hpe : p = [] → pr = []) :
    normPath (pathParams (absPath p) pr) = normPath (pathParams p pr) := by
  rw [normPath_pathParams hpe]
  apply normPath_of_abs
  by_cases hp : p = []
  · have hpr := hpe hp
    subst hp
    subst hpr
    simp [pathParams, absPath]
  · obtain ⟨htk, hne⟩ := absPath_props hp
    right
    simp only [pathParams]
    by_cases hpr : pr = []
    · rw [if_neg (by simp [hpr])]
      exact htk
    · rw [if_pos hpr]
      rcases hA : absPath p with _ | ⟨c, cs⟩
      · exact absurd hA hne
      · rw [hA] at htk
        simpa using htk

theorem unparse_roundtrip (n p pr q f : List Char)
    (hn : n ≠ []) (hnd : ∀ c ∈ n, notDelim c = true)
    (hp1 : '?' ∉ p) (hp2 : '#' ∉ p) (hpl : ';' ∉ lastSeg p)
    (hpr1 : '/' ∉ pr) (hpr2 : '?' ∉ pr) (hpr3 : '#' ∉ pr)
    (hq : '#' ∉ q) (hpe : p = [] → pr = []) :
    urljoinL baseUrlData (urlunparseL httpsL n p pr q f) =
      urlunparseL httpsL n p pr q f := by
  rw [urlunparseL_https n p pr q f hn]
  simp only [urljoinL]
  rw [if_neg (by decide : ¬ (baseUrlData = [])),
    if_neg (by simp [httpsL] :
      ¬ (httpsL ++ ':' :: '/' :: '/' ::
        (n ++ normPath (pathParams p pr) ++ optQ q ++ optF f) = [])),
    base_parse_eq]
  dsimp only
  rw [urlparse_of_unparse n p pr q f httpsL hnd hp1 hp2 hpl hpr1 hpr2 hpr3 hq hpe]
  simp only [urljoinCore]
  rw [if_neg (by decide : ¬ (httpsL ≠ httpsL ∨ httpsL ∉ usesRelative))]
  rw [if_pos (⟨by decide, hn⟩ : httpsL ∈ usesNetloc ∧ n ≠ [])]
  rw [urlunparseL_https _ _ _ _ _ hn, normPath_absPath_stable hpe]

theorem lastSeg_append_slash (a z : List Char) :
    lastSeg (a ++ '/' :: z) = lastSeg z := by
  simp only [lastSeg, List.reverse_append, List.reverse_cons]
  rw [List.append_assoc, List.singleton_append,
    takeWhile_append_stop _ (by simp)]

theorem getLastD_of_ne_nil {α : Type} {l : List α} (h : l ≠ []) (d1 d2 : α) :
    l.getLastD d1 = l.getLastD d2 := by
  rw [List.getLastD_eq_getLast?, List.getLastD_eq_getLast?,
    List.getLast?_eq_getLast _ h]
  rfl

theorem lastSeg_joinSlash {L : List (List Char)} (h : L ≠ [])
    (hs : ∀ s ∈ L, '/' ∉ s) :
    lastSeg (joinSlash L) = L.getLastD [] := by
  induction L with
  | nil => simp at h
  | cons x t ih =>
    cases t with
    | nil =>
      show lastSeg (joinSlash [x]) = _
      simp only [joinSlash]
      rw [lastSeg_all_no_slash (hs x (by simp))]
      rfl
    | cons y u =>
      show lastSeg (x ++ '/' :: joinSlash (y :: u)) = _
      rw [lastSeg_append_slash,
        ih (by simp) (fun s hs2 => hs s (by simp [List.mem_cons.mp hs2]))]
      rw [show (x :: y :: u).getLastD ([] : List Char) = (y :: u).getLastD x from
        List.getLastD_cons _ _ _]
      exact getLastD_of_ne_nil (by simp) [] x

theorem resolvedPathPQ_props (p : List Char)
    (hp1 : '?' ∉ p) (hp2 : '#' ∉ p) (hpl : ';' ∉ lastSeg p) :
    resolvedPathPQ p ≠ [] ∧ '?' ∉ resolvedPathPQ p ∧ '#' ∉ resolvedPathPQ p ∧
      ';' ∉ lastSeg (resolvedPathPQ p) := by
  have main : ∀ SEG : List (List Char),
      (∀ s ∈ SEG, '/' ∉ s ∧ '?' ∉ s ∧ '#' ∉ s) → SEG ≠ [] →
      SEG.getLast? = some (lastSeg p) →
      ∀ RP : List Char,
      RP = (if joinSlash (if SEG.getLastD [] = ['.'] ∨ SEG.getLastD [] = ['.', '.']
          then resolveSegs SEG ++ [[]] else resolveSegs SEG) = [] then ['/']
        else joinSlash (if SEG.getLastD [] = ['.'] ∨ SEG.getLastD [] = ['.', '.']
          then resolveSegs SEG ++ [[]] else resolveSegs SEG)) →
      RP ≠ [] ∧ '?' ∉ RP ∧ '#' ∉ RP ∧ ';' ∉ lastSeg RP := by
    intro SEG hmem hne hlast RP hRP
    have hlastD : SEG.getLastD [] = lastSeg p := by
      rw [List.getLastD_eq_getLast?, hlast]
      rfl
    by_cases hdots : SEG.getLastD [] = ['.'] ∨ SEG.getLastD [] = ['.', '.']
    · rw [if_pos hdots] at hRP
      have hmemR : ∀ s ∈ resolveSegs SEG ++ [[]],
          '/' ∉ s ∧ '?' ∉ s ∧ '#' ∉ s := by
        intro s hs
        rcases List.mem_append.mp hs with h1 | h1
        · exact hmem s (resolveSegs_subset h1)
        · simp only [List.mem_singleton] at h1
          subst h1
          exact ⟨by simp, by simp, by simp⟩
      by_cases hJ : joinSlash (resolveSegs SEG ++ [[]]) = []
      · rw [if_pos hJ] at hRP
        subst hRP
        exact ⟨by simp, by decide, by decide, by decide⟩
      · rw [if_neg hJ] at hRP
        subst hRP
        refine ⟨hJ,
          mem_joinSlash (fun s hs => (hmemR s hs).2.1) (by decide),
          mem_joinSlash (fun s hs => (hmemR s hs).2.2) (by decide), ?_⟩
        rw [lastSeg_joinSlash (fun hh => hJ (by rw [hh]; rfl))
          (fun s hs => (hmemR s hs).1)]
        rw [List.getLastD_eq_getLast?, List.getLast?_concat]
        simp
    · rw [if_neg hdots] at hRP
      have hgl : SEG.getLast hne = lastSeg p := by
        have h2 := List.getLast?_eq_getLast SEG hne
        rw [hlast] at h2
        exact (Option.some_inj.mp h2.symm)
      have hd2 : SEG.getLast hne ≠ ['.', '.'] := by
        rw [hgl]
        intro hh
        exact hdots (Or.inr (by rw [hlastD, hh]))
      have hd1 : SEG.getLast hne ≠ ['.'] := by
        rw [hgl]
        intro hh
        exact hdots (Or.inl (by rw [hlastD, hh]))
      have hres : resolveSegs SEG = resolveSegs SEG.dropLast ++ [lastSeg p] := by
        conv_lhs => rw [← List.dropLast_append_getLast hne]
        rw [resolveSegs_concat hd2 hd1, hgl]
      have hmemR : ∀ s ∈ resolveSegs SEG, '/' ∉ s ∧ '?' ∉ s ∧ '#' ∉ s :=
        fun s hs => hmem s (resolveSegs_subset hs)
      by_cases hJ : joinSlash (resolveSegs SEG) = []
      · rw [if_pos hJ] at hRP
        subst hRP
        exact ⟨by simp, by decide, by decide, by decide⟩
      · rw [if_neg hJ] at hRP
        subst hRP
        refine ⟨hJ,
          mem_joinSlash (fun s hs => (hmemR s hs).2.1) (by decide),
          mem_joinSlash (fun s hs => (hmemR s hs).2.2) (by decide), ?_⟩
        rw [lastSeg_joinSlash (fun hh => hJ (by rw [hh]; rfl))
          (fun s hs => (hmemR s hs).1)]
        rw [hres, List.getLastD_eq_getLast?, List.getLast?_concat]
        exact hpl
  simp only [resolvedPathPQ]
  by_cases habs : p.take 1 = ['/']
  · rw [if_pos habs]
    refine main (splitAllChar '/' p) ?_ splitAllChar_ne_nil ?_ _ rfl
    · intro s hs
      have := splitAllChar_mem_spec hs
      exact ⟨this.2, fun hc => hp1 (this.1 _ hc), fun hc => hp2 (this.1 _ hc)⟩
    · rw [splitAllChar_getLast?]
      rfl
  · rw [if_neg habs]
    have hnea : ([[], ['p']] ++ splitAllChar '/' p : List (List Char)) ≠ [] :=
      fun hh => splitAllChar_ne_nil (List.append_eq_nil.mp hh).2
    refine main (filterMiddle ([[], ['p']] ++ splitAllChar '/' p)) ?_
      (filterMiddle_ne_nil hnea) ?_ _ rfl
    · intro s hs
      have hsub := filterMiddle_subset hs
      rcases List.mem_append.mp hsub with h1 | h1
      · rcases List.mem_cons.mp h1 with h2 | h2
        · subst h2; exact ⟨by simp, by simp, by simp⟩
        · simp only [List.mem_singleton] at h2
          subst h2
          exact ⟨by decide, by decide, by decide⟩
      · have := splitAllChar_mem_spec h1
        exact ⟨this.2, fun hc => hp1 (this.1 _ hc), fun hc => hp2 (this.1 _ hc)⟩
    · rw [filterMiddle_getLast? hnea]
      rcases hS : splitAllChar '/' p with _ | ⟨x, y⟩
      · exact absurd hS splitAllChar_ne_nil
      · show ([] :: ['p'] :: x :: y).getLast? = _
        rw [List.getLast?_cons_cons, List.getLast?_cons_cons, ← hS,
          splitAllChar_getLast?]
        rfl

theorem urljoinL_ne {u : List Char} (hu : u ≠ []) :
    urljoinL baseUrlData u =
      urljoinCore ⟨httpsL, ['h'], ['/', 'p', '/', 'q'], [], [], []⟩
        (urlparseL u httpsL) u := by
  simp only [urljoinL]
  rw [if_neg (by decide : ¬ (baseUrlData = [])), if_neg hu, base_parse_eq]

theorem urljoinCore_foreign (u : List Char) (r : ParseL)
    (hs : r.scheme ≠ httpsL) :
    urljoinCore ⟨httpsL, ['h'], ['/', 'p', '/', 'q'], [], [], []⟩ r u = u := by
  simp only [urljoinCore]
  rw [if_pos (Or.inl hs)]

theorem urljoinCore_netloc (u n p pr q f : List Char) (hn : n ≠ []) :
    urljoinCore ⟨httpsL, ['h'], ['/', 'p', '/', 'q'], [], [], []⟩
        ⟨httpsL, n, p, pr, q, f⟩ u =
      urlunparseL httpsL n p pr q f := by
  simp only [urljoinCore]
  rw [if_neg (by decide : ¬ (httpsL ≠ httpsL ∨ httpsL ∉ usesRelative))]
  rw [if_pos (⟨by decide, hn⟩ : httpsL ∈ usesNetloc ∧ n ≠ [])]

theorem urljoinCore_empty_path (u q f : List Char) :
    urljoinCore ⟨httpsL, ['h'], ['/', 'p', '/', 'q'], [], [], []⟩
        ⟨httpsL, [], [], [], q, f⟩ u =
      urlunparseL httpsL ['h'] ['/', 'p', '/', 'q'] [] q f := by
  simp only [urljoinCore]
  rw [if_neg (by decide : ¬ (httpsL ≠ httpsL ∨ httpsL ∉ usesRelative))]
  rw [if_neg (show ¬ (httpsL ∈ usesNetloc ∧ ([] : List Char) ≠ []) from
    fun hh => hh.2 rfl)]
  rw [if_pos (by decide : httpsL ∈ usesNetloc)]
  rw [if_pos (⟨trivial, trivial⟩ : True ∧ True)]
  by_cases hq : q = [] <;> simp [hq]

theorem urljoinCore_relative (u p pr q f : List Char)
    (hno : ¬ (p = [] ∧ pr = [])) :
    urljoinCore ⟨httpsL, ['h'], ['/', 'p', '/', 'q'], [], [], []⟩
        ⟨httpsL, [], p, pr, q, f⟩ u =
      urlunparseL httpsL ['h'] (resolvedPathPQ p) pr q f := by
  simp only [urljoinCore, resolvedPathPQ]
  rw [if_neg (by decide : ¬ (httpsL ≠ httpsL ∨ httpsL ∉ usesRelative))]
  rw [if_neg (show ¬ (httpsL ∈ usesNetloc ∧ ([] : List Char) ≠ []) from
    fun hh => hh.2 rfl)]
  rw [if_pos (by decide : httpsL ∈ usesNetloc)]
  rw [if_neg hno]
  rw [show splitAllChar '/' ['/', 'p', '/', 'q'] = [[], ['p'], ['q']] from
    by decide]
  rw [if_pos (by decide :
    ([[], ['p'], ['q']] : List (List Char)).getLastD [] ≠ [])]
  rw [show ([[], ['p'], ['q']] : List (List Char)).dropLast = [[], ['p']] from
    by decide]

/-- Idempotence of `urljoin` against the base `https://h/p/q`: joining an
already-joined URL returns it unchanged. -/
theorem urljoinL_idem (u : List Char) :
    urljoinL baseUrlData (urljoinL baseUrlData u) = urljoinL baseUrlData u := by
  by_cases hu : u = []
  · subst hu
    decide
  · rcases hr : urlparseL u httpsL with ⟨s, n, p, pr, q, f⟩
    by_cases hs : s = httpsL
    case neg =>
      have h1 : urljoinL baseUrlData u = u := by
        rw [urljoinL_ne hu, hr]
        exact urljoinCore_foreign u _ hs
      rw [h1]
      exact h1
    case pos =>
      subst hs
      have hQ : q = (urlsplitL u httpsL).query := by
        have h2 := (urlparse_fields u httpsL).2.2.1
        rw [hr] at h2
        exact h2
      have hN : n = (urlsplitL u httpsL).netloc := by
        have h2 := (urlparse_fields u httpsL).2.1
        rw [hr] at h2
        exact h2
      have hdecomp := urlparse_path_decomp u httpsL
      rw [hr] at hdecomp
      have hpr1 : '/' ∉ pr := by
        have h2 := urlparse_params_no_slash u httpsL
        rw [hr] at h2
        exact h2
      have hpl : ';' ∉ lastSeg p := by
        have h2 := urlparse_lastSeg_path u httpsL
          (by rw [hr]; exact (by decide : httpsL ∈ usesParams))
        rw [hr] at h2
        exact h2
      have hsd := urlsplit_path_delims u httpsL
      have hp1 : '?' ∉ p := by
        rcases hdecomp with ⟨h1, _⟩ | h1
        · rw [show p = (urlsplitL u httpsL).path from h1]
          exact hsd.1
        · exact fun hc => hsd.1 (h1 ▸ List.mem_append.mpr (Or.inl hc))
      have hp2 : '#' ∉ p := by
        rcases hdecomp with ⟨h1, _⟩ | h1
        · rw [show p = (urlsplitL u httpsL).path from h1]
          exact hsd.2.1
        · exact fun hc => hsd.2.1 (h1 ▸ List.mem_append.mpr (Or.inl hc))
      have hpr2 : '?' ∉ pr := by
        rcases hdecomp with ⟨_, h1⟩ | h1
        · rw [show pr = [] from h1]
          simp
        · exact fun hc =>
            hsd.1 (h1 ▸ List.mem_append.mpr (Or.inr (by simp [hc])))
      have hpr3 : '#' ∉ pr := by
        rcases hdecomp with ⟨_, h1⟩ | h1
        · rw [show pr = [] from h1]
          simp
        · exact fun hc =>
            hsd.2.1 (h1 ▸ List.mem_append.mpr (Or.inr (by simp [hc])))
      have hq2 : '#' ∉ q := by
        rw [hQ]
        exact hsd.2.2
      by_cases hn : n = []
      · subst hn
        by_cases hpp : p = [] ∧ pr = []
        · obtain ⟨hp0, hpr0⟩ := hpp
          subst hp0
          subst hpr0
          have h1 : urljoinL baseUrlData u =
              urlunparseL httpsL ['h'] ['/', 'p', '/', 'q'] [] q f := by
            rw [urljoinL_ne hu, hr]
            exact urljoinCore_empty_path u q f
          rw [h1]
          exact unparse_roundtrip ['h'] ['/', 'p', '/', 'q'] [] q f
            (by simp) (by decide) (by decide) (by decide) (by decide)
            (by simp) (by simp) (by simp) hq2
            (fun hh => absurd hh (by decide))
        · have h1 : urljoinL baseUrlData u =
              urlunparseL httpsL ['h'] (resolvedPathPQ p) pr q f := by
            rw [urljoinL_ne hu, hr]
            exact urljoinCore_relative u p pr q f hpp
          obtain ⟨hRne, hRq, hRh, hRl⟩ := resolvedPathPQ_props p hp1 hp2 hpl
          rw [h1]
          exact unparse_roundtrip ['h'] (resolvedPathPQ p) pr q f
            (by simp) (by decide) hRq hRh hRl hpr1 hpr2 hpr3 hq2
            (fun hh => absurd hh hRne)
      · have hnd : ∀ c ∈ n, notDelim c = true := by
          rw [hN]
          exact urlsplit_netloc_notDelim u httpsL
        have hpe : p = [] → pr = [] := by
          intro hp0
          subst hp0
          have hshape := urlsplit_netloc_path_shape u httpsL
            (by rw [← hN]; exact hn)
          rcases hdecomp with ⟨_, h2⟩ | h1
          · exact h2
          · rcases hshape with h3 | h3
            · rw [h1] at h3
              simp at h3
            · rw [h1] at h3
              simp at h3
        have h1 : urljoinL baseUrlData u = urlunparseL httpsL n p pr q f := by
          rw [urljoinL_ne hu, hr]
          exact urljoinCore_netloc u n p pr q f hn
        rw [h1]
        exact unparse_roundtrip n p pr q f hn hnd hp1 hp2 hpl hpr1 hpr2 hpr3
          hq2 hpe

/-- String-level idempotence of `urljoin` for the base `https://h/p/q`. -/
theorem pyUrljoin_idem (u : String) :
    pyUrljoin "https://h/p/q" (pyUrljoin "https://h/p/q" u) =
      pyUrljoin "https://h/p/q" u :=
  congrArg (fun l => (⟨l⟩ : String)) (urljoinL_idem u.data)

/-- A URL whose parsed scheme differs from `https` passes through
`urljoin` against `https://h/p/q` unchanged. -/
theorem pyUrljoin_foreign (u : String)
    (h : (urlparseL u.data httpsL).scheme ≠ httpsL) :
    pyUrljoin "https://h/p/q" u = u := by
  have hu : u.data ≠ [] := by
    intro hh
    apply h
    rw [hh]
    decide
  have h2 : urljoinL baseUrlData u.data = u.data := by
    rw [urljoinL_ne hu]
    exact urljoinCore_foreign u.data _ h
  show (⟨urljoinL baseUrlData u.data⟩ : String) = u
  rw [h2]

/-! ## Claim theorems -/

/-- C1 (counterexample): the claim says that when the digit-stripped text
does not convert, the *original raw text* is returned unmodified; but for
the raw completion text `"  unknown  "` the code returns the
whitespace-stripped `"unknown"`, not the original raw text. -/
theorem C1_counterexample :
    normalize_answer "  unknown  " = AnswerV.str "unknown" ∧
      AnswerV.str "unknown" ≠ AnswerV.str "  unknown  " := by
  exact ⟨by decide, by decide⟩

set_option maxRecDepth 100000 in
/-- C1 (amended): for every raw completion text, if after whitespace
trimming (the full Unicode `str.strip()` set) it is empty or equals
`ANSWER_NOT_FOUND` the result is the sentinel; otherwise every character
that is not a digit or `.` is stripped and the remainder, when
non-empty, is converted via `int(float(cleaned))` at binary64 precision
(`"29172"` gives integer 29172, `"The sum is 450123."` gives integer
450123, and the IEEE-754 rounding is modelled exactly:
`"9007199254740993"` gives 9007199254740992); if the conversion raises
`ValueError` (the remainder is empty or not a float literal), the
*whitespace-trimmed* text is returned (so `"unknown"` is returned
unchanged); and if `float` overflows to infinity, `int` raises an
`OverflowError` that escapes `except ValueError`, so the outer handler
returns `"Error: cannot convert float infinity to integer"` (exhibited
on a 310-digit numeric, `1` followed by 309 zeros). -/
theorem C1_normalization_amended (raw : String) :
    (pyStrip raw = "" ∨ pyStrip raw = "ANSWER_NOT_FOUND" →
        normalize_answer raw = .str "ANSWER_NOT_FOUND") ∧
    (pyStrip raw ≠ "" → pyStrip raw ≠ "ANSWER_NOT_FOUND" →
        (∀ n, pyIntOfFloat (keepDigitsDots (pyStrip raw)) = .num n →
            normalize_answer raw = .int n) ∧
        (pyIntOfFloat (keepDigitsDots (pyStrip raw)) = .valueError →
            normalize_answer raw = .str (pyStrip raw)) ∧
        (pyIntOfFloat (keepDigitsDots (pyStrip raw)) = .overflow →
            normalize_answer raw =
              .str "Error: cannot convert float infinity to integer")) ∧
    normalize_answer "29172" = .int 29172 ∧
    normalize_answer "The sum is 450123." = .int 450123 ∧
    normalize_answer "ANSWER_NOT_FOUND" = .str "ANSWER_NOT_FOUND" ∧
    normalize_answer "unknown" = .str "unknown" ∧
    normalize_answer "9007199254740993" = .int 9007199254740992 ∧
    normalize_answer "\u00A0ANSWER_NOT_FOUND" = .str "ANSWER_NOT_FOUND" ∧
    normalize_answer ⟨'1' :: List.replicate 309 '0'⟩ =
      .str "Error: cannot convert float infinity to integer" := by
  refine ⟨?_, ?_, by decide, by decide, by decide, by decide, by decide,
    by decide, by decide⟩
  · intro h
    simp only [normalize_answer]
    rw [if_pos h]
  · intro h1 h2
    have hng : ¬ (pyStrip raw = "" ∨ pyStrip raw = "ANSWER_NOT_FOUND") := by
      rintro (h | h)
      · exact h1 h
      · exact h2 h
    refine ⟨?_, ?_, ?_⟩
    · intro n hn
      simp only [normalize_answer]
      rw [if_neg hng]
      have hcne : keepDigitsDots (pyStrip raw) ≠ "" := by
        intro hh
        rw [hh, (by decide : pyIntOfFloat "" = .valueError)] at hn
        cases hn
      rw [if_pos hcne, hn]
    · intro hn
      simp only [normalize_answer]
      rw [if_neg hng]
      by_cases hc : keepDigitsDots (pyStrip raw) ≠ ""
      · rw [if_pos hc, hn]
      · rw [if_neg hc]
    · intro hn
      simp only [normalize_answer]
      rw [if_neg hng]
      have hcne : keepDigitsDots (pyStrip raw) ≠ "" := by
        intro hh
        rw [hh, (by decide : pyIntOfFloat "" = .valueError)] at hn
        cases hn
      rw [if_pos hcne, hn]

set_option maxRecDepth 100000 in
/-- C1 (witness): the amended theorem applied to concrete inputs. -/
theorem C1_witness :
    normalize_answer "abc12box" = AnswerV.int 12 ∧
      normalize_answer "no digits here!" = AnswerV.str "no digits here!" := by
  constructor
  · exact ((C1_normalization_amended "abc12box").2.1 (by decide) (by decide)).1
      12 (by decide)
  · exact ((C1_normalization_amended "no digits here!").2.1 (by decide)
      (by decide)).2.1 (by decide)

/-- C10: `download_file` never inspects the HTTP status of the download
response: whatever the server returns is written to the derived local
path and that path is returned as a successful download, independently of
the status code. -/
theorem C10_download_ignores_status (url save_path : String)
    (resp : HttpResponse) :
    download_file url save_path resp =
      (save_path ++ "/" ++ derived_filename url, resp.content) ∧
    (∀ s1 s2 content, download_file url save_path ⟨s1, content⟩ =
        download_file url save_path ⟨s2, content⟩) :=
  ⟨rfl, fun _ _ _ => rfl⟩

/-- C8: the trigger endpoint rejects any payload whose secret or email
differs from the configured values with a 403 and never schedules the
solver; when both match it schedules `run_quiz_solver_background` with the
payload's fields and immediately returns the fixed acceptance response
(never the quiz's outcome). -/
theorem C8_trigger_authorization (cfgSecret cfgEmail : String)
    (p : QuizPayload) :
    ((p.secret ≠ cfgSecret ∨ p.email ≠ cfgEmail) →
        (∃ detail, start_quiz (some cfgSecret) (some cfgEmail) p =
          .httpError 403 detail) ∧
        scheduledTask (start_quiz (some cfgSecret) (some cfgEmail) p) = none) ∧
    (p.secret = cfgSecret → p.email = cfgEmail →
        start_quiz (some cfgSecret) (some cfgEmail) p =
          .accepted "accepted"
            "Quiz task accepted and is processing in the background."
            (some (p.email, p.secret, p.url))) := by
  constructor
  · intro h
    by_cases hsec : p.secret = cfgSecret
    · have hem : p.email ≠ cfgEmail := by
        rcases h with h | h
        · exact absurd hsec h
        · exact h
      have hc1 : ¬ (some p.secret ≠ some cfgSecret) := by simp [hsec]
      have hc2 : some p.email ≠ some cfgEmail := by simp [hem]
      simp only [start_quiz, if_neg hc1, if_pos hc2]
      exact ⟨⟨"Invalid email provided.", rfl⟩, rfl⟩
    · have hc1 : some p.secret ≠ some cfgSecret := by simp [hsec]
      simp only [start_quiz, if_pos hc1]
      exact ⟨⟨"Invalid secret provided.", rfl⟩, rfl⟩
  · intro h1 h2
    have hc1 : ¬ (some p.secret ≠ some cfgSecret) := by simp [h1]
    have hc2 : ¬ (some p.email ≠ some cfgEmail) := by simp [h2]
    simp only [start_quiz, if_neg hc1, if_neg hc2]

/-- C8 (witness): a matching payload is accepted and scheduled; a payload
with a wrong secret is rejected and never scheduled. -/
theorem C8_witness :
    start_quiz (some "s3cret") (some "a@b.c")
        ⟨"a@b.c", "s3cret", "https://quiz/start", []⟩ =
      .accepted "accepted"
        "Quiz task accepted and is processing in the background."
        (some ("a@b.c", "s3cret", "https://quiz/start")) ∧
    scheduledTask (start_quiz (some "s3cret") (some "a@b.c")
        ⟨"a@b.c", "wrong", "https://quiz/start", []⟩) = none := by
  constructor
  · exact (C8_trigger_authorization "s3cret" "a@b.c"
      ⟨"a@b.c", "s3cret", "https://quiz/start", []⟩).2 rfl rfl
  · exact ((C8_trigger_authorization "s3cret" "a@b.c"
      ⟨"a@b.c", "wrong", "https://quiz/start", []⟩).1
      (Or.inl (by decide))).2

/-- C2: a round whose pre-round check sees elapsed time above 170 seconds
never issues that round's fetch call, and the loop stops there as a
normal, non-error termination; a round whose check sees at most 170
seconds (in particular 169) does proceed to the fetch call. -/
theorem C2_timeout_budget (current_url : JVal) (elapsed : Rat)
    (env : RoundEnv) (rest : List (Rat × RoundEnv)) :
    (170 < elapsed →
        runRound current_url elapsed env = (.timedOut, {}) ∧
        (current_url.truthy = true →
          runLoop current_url ((elapsed, env) :: rest) = ([{}], .timedOut))) ∧
    (elapsed ≤ 170 →
        (runRound current_url elapsed env).2.fetchCalled = true) := by
  constructor
  · intro h
    have h1 : runRound current_url elapsed env = (.timedOut, {}) := by
      simp only [runRound]
      rw [if_pos h]
    refine ⟨h1, fun htr => ?_⟩
    simp [runLoop, htr, h1]
  · intro h
    simp only [runRound]
    rw [if_neg (not_lt.mpr h)]
    repeat' (first | rfl | split)

/-- C2 (witness): at 171 seconds the round times out without fetching; at
169 seconds it fetches. -/
theorem C2_witness :
    runRound (.jstr "https://quiz/start") 171 sampleEnv = (.timedOut, {}) ∧
    (runRound (.jstr "https://quiz/start") 169 sampleEnv).2.fetchCalled =
      true := by
  constructor
  · exact ((C2_timeout_budget (.jstr "https://quiz/start") 171 sampleEnv []).1
      (by norm_num)).1
  · exact (C2_timeout_budget (.jstr "https://quiz/start") 169 sampleEnv []).2
      (by norm_num)

/-- C4: when the content fetcher's result begins with `Error:`, the round
terminates as a scrape failure without invoking the plan resolver (no LLM
call that round), and the loop stops; moreover every error result of
`scrape_page_content` does begin with `Error:`. -/
theorem C4_scrape_error (current_url : JVal) (elapsed : Rat)
    (env : RoundEnv) (rest : List (Rat × RoundEnv))
    (ht : elapsed ≤ 170)
    (hs : pyStartsWith env.scrapeResult "Error:" = true) :
    runRound current_url elapsed env =
      (.scrapeFailed, { fetchCalled := true }) ∧
    (current_url.truthy = true →
        runLoop current_url ((elapsed, env) :: rest) =
          ([{ fetchCalled := true }], .scrapeFailed)) ∧
    (∀ e, pyStartsWith (scrape_page_content (.error e)) "Error:" = true) := by
  have h1 : runRound current_url elapsed env =
      (.scrapeFailed, { fetchCalled := true }) := by
    simp only [runRound]
    rw [if_neg (not_lt.mpr ht)]
    simp [hs]
  refine ⟨h1, fun htr => ?_, fun e => ?_⟩
  · simp [runLoop, htr, h1]
  · simp only [scrape_page_content, pyStartsWith]
    rw [List.isPrefixOf_iff_prefix]
    have h2 : ("Error: Could not scrape page. " ++ e).data =
        "Error: Could not scrape page. ".data ++ e.data := rfl
    rw [h2]
    exact List.IsPrefix.trans (by decide) (List.prefix_append _ _)

/-- C4 (witness): a concrete failed render terminates a concrete round as
a scrape failure. -/
theorem C4_witness :
    runRound (.jstr "https://quiz/start") 5
        { sampleEnv with
          scrapeResult := scrape_page_content (.error "timeout") } =
      (.scrapeFailed, { fetchCalled := true }) := by
  refine (C4_scrape_error (.jstr "https://quiz/start") 5
    { sampleEnv with scrapeResult := scrape_page_content (.error "timeout") }
    [] (by norm_num) ?_).1
  decide

/-- C9: planning failure is detected by key membership: whenever the LLM
exchange parses to a dict that contains a top-level `"error"` key, the
round ends as a planning failure without calling the answer resolver,
even when the dict's `submit_url` is valid and non-empty (such a dict
passes through `get_plan_from_llm` unchanged). -/
theorem C9_error_key_membership (d : Dict) (current_url : JVal)
    (elapsed : Rat) (env : RoundEnv)
    (ht : elapsed ≤ 170)
    (hs : pyStartsWith env.scrapeResult "Error:" = false)
    (hplan : env.planLLM = .ok d)
    (hsub : truthyO (dictGet d "submit_url") = true)
    (hek : dictHasKey d "error" = true) :
    get_plan_from_llm env.planLLM = d ∧
    (runRound current_url elapsed env).1 = .planFailed ∧
    (runRound current_url elapsed env).2.answerCalled = false := by
  have hg : get_plan_from_llm env.planLLM = d := by
    rw [hplan]
    simp [get_plan_from_llm, hsub]
  have h1 : runRound current_url elapsed env =
      (.planFailed, { fetchCalled := true, planCalled := true }) := by
    simp only [runRound]
    rw [if_neg (not_lt.mpr ht)]
    simp [hs, hg, hek]
  exact ⟨hg, by rw [h1], by rw [h1]⟩

/-- C9 (witness): a plan dict carrying both a valid `submit_url` and an
`"error"` key is still treated as a planning failure. -/
theorem C9_witness :
    (runRound (.jstr "https://quiz/start") 5
        { sampleEnv with planLLM := .ok [("error", .jstr "oops"),
            ("submit_url", .jstr "/submit")] }).1 = .planFailed ∧
    (runRound (.jstr "https://quiz/start") 5
        { sampleEnv with planLLM := .ok [("error", .jstr "oops"),
            ("submit_url", .jstr "/submit")] }).2.answerCalled = false := by
  have h := C9_error_key_membership
    [("error", .jstr "oops"), ("submit_url", .jstr "/submit")]
    (.jstr "https://quiz/start") 5
    { sampleEnv with planLLM := .ok [("error", .jstr "oops"),
        ("submit_url", .jstr "/submit")] }
    (by norm_num) (by decide) rfl (by decide) (by decide)
  exact ⟨h.2.1, h.2.2⟩

/-- C3: a plan whose `submit_url` is empty or absent makes the plan
resolver return the planning-error marker (a dict with the `"error"`
key), and the round terminates as a planning failure without ever calling
the answer resolver; the loop ends there. -/
theorem C3_missing_submit_url (d : Dict) (current_url : JVal)
    (elapsed : Rat) (env : RoundEnv) (rest : List (Rat × RoundEnv))
    (ht : elapsed ≤ 170)
    (hs : pyStartsWith env.scrapeResult "Error:" = false)
    (hplan : env.planLLM = .ok d)
    (hsub : truthyO (dictGet d "submit_url") = false) :
    dictHasKey (get_plan_from_llm env.planLLM) "error" = true ∧
    (runRound current_url elapsed env).1 = .planFailed ∧
    (runRound current_url elapsed env).2.answerCalled = false ∧
    (current_url.truthy = true →
        (runLoop current_url ((elapsed, env) :: rest)).2 = .planFailed) := by
  have hg : get_plan_from_llm env.planLLM =
      [("error",
        .jstr ("LLM failed to find a submit_url. Plan: " ++ reprDict d))] := by
    rw [hplan]
    simp [get_plan_from_llm, hsub]
  have hek : dictHasKey (get_plan_from_llm env.planLLM) "error" = true := by
    rw [hg]
    simp [dictHasKey]
  have h1 : runRound current_url elapsed env =
      (.planFailed, { fetchCalled := true, planCalled := true }) := by
    simp only [runRound]
    rw [if_neg (not_lt.mpr ht)]
    simp [hs, hg, dictHasKey]
  refine ⟨hek, by rw [h1], by rw [h1], fun htr => ?_⟩
  simp [runLoop, htr, h1]

/-- C3 (witness): a plan with an empty `submit_url` terminates a concrete
round as a planning failure with no answer call. -/
theorem C3_witness :
    (runRound (.jstr "https://quiz/start") 5
        { sampleEnv with planLLM := .ok [("question", .jstr "Q"),
            ("submit_url", .jstr "")] }).1 = .planFailed ∧
    (runRound (.jstr "https://quiz/start") 5
        { sampleEnv with planLLM := .ok [("question", .jstr "Q"),
            ("submit_url", .jstr "")] }).2.answerCalled = false := by
  have h := C3_missing_submit_url
    [("question", .jstr "Q"), ("submit_url", .jstr "")]
    (.jstr "https://quiz/start") 5
    { sampleEnv with planLLM := .ok [("question", .jstr "Q"),
        ("submit_url", .jstr "")] }
    [] (by norm_num) (by decide) rfl (by decide)
  exact ⟨h.2.1, h.2.2.1⟩

theorem runRound_full (b : String) (elapsed : Rat) (env : RoundEnv)
    (d : Dict) (qs du su : String)
    (ht : elapsed ≤ 170)
    (hs : pyStartsWith env.scrapeResult "Error:" = false)
    (hplan : env.planLLM = .ok d)
    (hek : dictHasKey d "error" = false)
    (hq : dictGet d "question" = some (.jstr qs))
    (hdu : dictGet d "data_url" = some (.jstr du)) (hdut : du ≠ "")
    (hsu : dictGet d "submit_url" = some (.jstr su)) (hsut : su ≠ "") :
    runRound (.jstr b) elapsed env =
      ((match env.submitResult with
        | .error _ => RoundResult.exnCaught
        | .ok rd => RoundResult.continued (dictGet rd "url")),
       { fetchCalled := true, planCalled := true,
         resolvedDataUrl := some (pyUrljoin b du),
         resolvedSubmitUrl := some (pyUrljoin b su),
         downloadUrl := (dataAcquisition env.scrapeResult
           (some (.jstr (pyUrljoin b du))) env).1,
         dataContext := some (dataAcquisition env.scrapeResult
           (some (.jstr (pyUrljoin b du))) env).2,
         answerCalled := true,
         submitTarget := some (pyUrljoin b su) }) := by
  have hg : get_plan_from_llm env.planLLM = d := by
    rw [hplan]
    simp [get_plan_from_llm, hsu, truthyO, JVal.truthy, hsut]
  have hrd : resolveStep (.jstr b) (dictGet d "data_url") =
      some (some (.jstr (pyUrljoin b du))) := by
    rw [hdu]
    simp [resolveStep, truthyO, JVal.truthy, hdut]
  have hrs : resolveStep (.jstr b) (dictGet d "submit_url") =
      some (some (.jstr (pyUrljoin b su))) := by
    rw [hsu]
    simp [resolveStep, truthyO, JVal.truthy, hsut]
  simp only [runRound]
  rw [if_neg (not_lt.mpr ht)]
  simp only [hs, Bool.false_eq_true, if_false, hg, hek, hrd, hrs, hq]
  rcases env.submitResult with e | rd <;> rfl

theorem runRound_full_nodata (b : String) (elapsed : Rat) (env : RoundEnv)
    (d : Dict) (qs su : String)
    (ht : elapsed ≤ 170)
    (hs : pyStartsWith env.scrapeResult "Error:" = false)
    (hplan : env.planLLM = .ok d)
    (hek : dictHasKey d "error" = false)
    (hq : dictGet d "question" = some (.jstr qs))
    (hdu : truthyO (dictGet d "data_url") = false)
    (hsu : dictGet d "submit_url" = some (.jstr su)) (hsut : su ≠ "") :
    runRound (.jstr b) elapsed env =
      ((match env.submitResult with
        | .error _ => RoundResult.exnCaught
        | .ok rd => RoundResult.continued (dictGet rd "url")),
       { fetchCalled := true, planCalled := true,
         resolvedDataUrl := optStr (dictGet d "data_url"),
         resolvedSubmitUrl := some (pyUrljoin b su),
         downloadUrl := (dataAcquisition env.scrapeResult
           (dictGet d "data_url") env).1,
         dataContext := some (dataAcquisition env.scrapeResult
           (dictGet d "data_url") env).2,
         answerCalled := true,
         submitTarget := some (pyUrljoin b su) }) := by
  have hg : get_plan_from_llm env.planLLM = d := by
    rw [hplan]
    simp [get_plan_from_llm, hsu, truthyO, JVal.truthy, hsut]
  have hrd : resolveStep (.jstr b) (dictGet d "data_url") =
      some (dictGet d "data_url") := by
    simp [resolveStep, hdu]
  have hrs : resolveStep (.jstr b) (dictGet d "submit_url") =
      some (some (.jstr (pyUrljoin b su))) := by
    rw [hsu]
    simp [resolveStep, truthyO, JVal.truthy, hsut]
  simp only [runRound]
  rw [if_neg (not_lt.mpr ht)]
  simp only [hs, Bool.false_eq_true, if_false, hg, hek, hrd, hrs, hq]
  rcases env.submitResult with e | rd <;> rfl

theorem runLoop_falsy (u : JVal) (rounds : List (Rat × RoundEnv))
    (h : u.truthy = false) :
    runLoop u rounds = ([], .finished) := by
  cases rounds <;> simp [runLoop, h]

/-- **C6.** Data-acquisition failures never terminate a round: in any
round that reaches the data-acquisition step with a truthy resolved
`data_url`, the answering LLM is still called and the round does not end
in any of the `break` outcomes, whatever `download_file` or the
extractors do; a download exception or an extractor exception degrades
`data_context` to `"Error processing file: <e>"`; otherwise the
extractor is selected by suffix of the saved path (`.pdf` → PDF text,
`.csv` → CSV text, anything else the placeholder
`"File downloaded to: <path>"`). -/
theorem C6_data_failures_nonterminal (b : String) (elapsed : Rat)
    (env : RoundEnv) (d : Dict) (qs du su : String)
    (ht : elapsed ≤ 170)
    (hs : pyStartsWith env.scrapeResult "Error:" = false)
    (hplan : env.planLLM = .ok d)
    (hek : dictHasKey d "error" = false)
    (hq : dictGet d "question" = some (.jstr qs))
    (hdu : dictGet d "data_url" = some (.jstr du)) (hdut : du ≠ "")
    (hsu : dictGet d "submit_url" = some (.jstr su)) (hsut : su ≠ "")
    (hres : pyUrljoin b du ≠ "") :
    ((runRound (.jstr b) elapsed env).2.answerCalled = true ∧
     (runRound (.jstr b) elapsed env).2.downloadUrl = some (pyUrljoin b du) ∧
     (runRound (.jstr b) elapsed env).1 ≠ .timedOut ∧
     (runRound (.jstr b) elapsed env).1 ≠ .scrapeFailed ∧
     (runRound (.jstr b) elapsed env).1 ≠ .planFailed) ∧
    (∀ e, env.download = .error e →
      (runRound (.jstr b) elapsed env).2.dataContext =
        some ("Error processing file: " ++ e)) ∧
    (∀ resp e, env.download = .ok resp →
      pyEndsWith (download_file (pyUrljoin b du) "temp_data" resp).1 ".pdf"
          = true →
      env.pdfExtract = .error e →
      (runRound (.jstr b) elapsed env).2.dataContext =
        some ("Error processing file: " ++ e)) ∧
    (∀ resp e, env.download = .ok resp →
      pyEndsWith (download_file (pyUrljoin b du) "temp_data" resp).1 ".pdf"
          = false →
      pyEndsWith (download_file (pyUrljoin b du) "temp_data" resp).1 ".csv"
          = true →
      env.csvExtract = .error e →
      (runRound (.jstr b) elapsed env).2.dataContext =
        some ("Error processing file: " ++ e)) ∧
    (∀ resp t, env.download = .ok resp →
      pyEndsWith (download_file (pyUrljoin b du) "temp_data" resp).1 ".pdf"
          = true →
      env.pdfExtract = .ok t →
      (runRound (.jstr b) elapsed env).2.dataContext = some t) ∧
    (∀ resp t, env.download = .ok resp →
      pyEndsWith (download_file (pyUrljoin b du) "temp_data" resp).1 ".pdf"
          = false →
      pyEndsWith (download_file (pyUrljoin b du) "temp_data" resp).1 ".csv"
          = true →
      env.csvExtract = .ok t →
      (runRound (.jstr b) elapsed env).2.dataContext = some t) ∧
    (∀ resp, env.download = .ok resp →
      pyEndsWith (download_file (pyUrljoin b du) "temp_data" resp).1 ".pdf"
          = false →
      pyEndsWith (download_file (pyUrljoin b du) "temp_data" resp).1 ".csv"
          = false →
      (runRound (.jstr b) elapsed env).2.dataContext =
        some ("File downloaded to: " ++
          (download_file (pyUrljoin b du) "temp_data" resp).1)) := by
  have hfull := runRound_full b elapsed env d qs du su ht hs hplan hek hq
    hdu hdut hsu hsut
  have h2 : (runRound (.jstr b) elapsed env).2 =
      { fetchCalled := true, planCalled := true,
        resolvedDataUrl := some (pyUrljoin b du),
        resolvedSubmitUrl := some (pyUrljoin b su),
        downloadUrl := (dataAcquisition env.scrapeResult
          (some (.jstr (pyUrljoin b du))) env).1,
        dataContext := some (dataAcquisition env.scrapeResult
          (some (.jstr (pyUrljoin b du))) env).2,
        answerCalled := true,
        submitTarget := some (pyUrljoin b su) } := by rw [hfull]
  refine ⟨⟨?_, ?_, ?_, ?_, ?_⟩, ?_, ?_, ?_, ?_, ?_, ?_⟩
  · rw [h2]
  · rw [h2]
    simp [dataAcquisition, hres]
  · rw [hfull]
    rcases env.submitResult with e | rd <;> simp
  · rw [hfull]
    rcases env.submitResult with e | rd <;> simp
  · rw [hfull]
    rcases env.submitResult with e | rd <;> simp
  · intro e hdl
    rw [h2]
    simp [dataAcquisition, hres, hdl]
  · intro resp e hok hpdf hpe
    rw [h2]
    simp [dataAcquisition, hres, hok, hpdf, hpe]
  · intro resp e hok hpdf hcsv hce
    rw [h2]
    simp [dataAcquisition, hres, hok, hpdf, hcsv, hce]
  · intro resp t hok hpdf hpe
    rw [h2]
    simp [dataAcquisition, hres, hok, hpdf, hpe]
  · intro resp t hok hpdf hcsv hce
    rw [h2]
    simp [dataAcquisition, hres, hok, hpdf, hcsv, hce]
  · intro resp hok hpdf hcsv
    rw [h2]
    simp [dataAcquisition, hres, hok, hpdf, hcsv]

/-- Witness for C6: in the concrete CSV round, the answering step runs
with the extracted CSV text as its data context. -/
theorem C6_witness :
    (runRound (.jstr "https://h/p/q") 10 sampleEnvCsv).2.dataContext =
      some "10 200 50 300" ∧
    (runRound (.jstr "https://h/p/q") 10 sampleEnvCsv).2.answerCalled
      = true := by
  have h := C6_data_failures_nonterminal "https://h/p/q" 10 sampleEnvCsv
    [("question", .jstr "CSV file Cutoff: 100"),
     ("data_url", .jstr "data.csv"), ("submit_url", .jstr "/submit")]
    "CSV file Cutoff: 100" "data.csv" "/submit"
    (by norm_num) (by decide) rfl (by decide) rfl rfl (by decide) rfl
    (by decide) (by decide)
  exact ⟨h.2.2.2.2.2.1 { status := 200, content := "10,200,50,300" }
      "10 200 50 300" rfl (by decide) (by decide) rfl, h.1.1⟩

/-- **C7.** Continuation rule: in any round that reaches a submission
whose POST succeeds and parses to `rd`, the round ends with
`current_url = rd.get("url")`; this next URL is read from the `"url"`
key irrespective of the value stored under `"correct"`; if the follow-up
URL is absent or falsy the loop terminates with the normal `finished`
outcome, and if it is a non-empty string the loop recurses on it. -/
theorem C7_continuation (b : String) (elapsed : Rat) (env : RoundEnv)
    (d rd : Dict) (qs su : String)
    (hb : b ≠ "")
    (ht : elapsed ≤ 170)
    (hs : pyStartsWith env.scrapeResult "Error:" = false)
    (hplan : env.planLLM = .ok d)
    (hek : dictHasKey d "error" = false)
    (hq : dictGet d "question" = some (.jstr qs))
    (hdu : truthyO (dictGet d "data_url") = false ∨
      ∃ dus, dictGet d "data_url" = some (.jstr dus))
    (hsu : dictGet d "submit_url" = some (.jstr su)) (hsut : su ≠ "")
    (hsr : env.submitResult = .ok rd) :
    (runRound (.jstr b) elapsed env).1 = .continued (dictGet rd "url") ∧
    (∀ v1 v2 (tail : Dict),
        dictGet (("correct", v1) :: tail) "url" =
          dictGet (("correct", v2) :: tail) "url") ∧
    (truthyO (dictGet rd "url") = false →
      ∀ rest, runLoop (.jstr b) ((elapsed, env) :: rest) =
        ([(runRound (.jstr b) elapsed env).2], .finished)) ∧
    (∀ nu, dictGet rd "url" = some (.jstr nu) → nu ≠ "" →
      ∀ rest, runLoop (.jstr b) ((elapsed, env) :: rest) =
        ((runRound (.jstr b) elapsed env).2 :: (runLoop (.jstr nu) rest).1,
          (runLoop (.jstr nu) rest).2)) := by
  have hR : ∃ tr, runRound (.jstr b) elapsed env =
      (.continued (dictGet rd "url"), tr) := by
    rcases hdu with hfal | ⟨dus, hdus⟩
    · have heq := runRound_full_nodata b elapsed env d qs su ht hs hplan
        hek hq hfal hsu hsut
      rw [hsr] at heq
      exact ⟨_, heq⟩
    · by_cases hne : dus = ""
      · have hfal : truthyO (dictGet d "data_url") = false := by
          rw [hdus]
          subst hne
          decide
        have heq := runRound_full_nodata b elapsed env d qs su ht hs hplan
          hek hq hfal hsu hsut
        rw [hsr] at heq
        exact ⟨_, heq⟩
      · have heq := runRound_full b elapsed env d qs dus su ht hs hplan
          hek hq hdus hne hsu hsut
        rw [hsr] at heq
        exact ⟨_, heq⟩
  obtain ⟨tr, hR⟩ := hR
  have hbt : (JVal.jstr b).truthy = true := by
    simp [JVal.truthy, hb]
  refine ⟨by rw [hR], fun v1 v2 tail => rfl, ?_, ?_⟩
  · intro hfal rest
    rcases hu : dictGet rd "url" with _ | v
    · rw [hu] at hR
      simp only [runLoop, hbt, if_true, hR]
      rw [runLoop_falsy JVal.jnull rest rfl]
    · rw [hu] at hR
      rw [hu] at hfal
      simp only [runLoop, hbt, if_true, hR]
      rw [runLoop_falsy v rest hfal]
  · intro nu hnu hnun rest
    simp only [runLoop, hbt, if_true, hR, hnu]

/-- Witness for C7: the concrete CSV round continues with the follow-up
URL from the submission result, and the loop recurses on it. -/
theorem C7_witness :
    (runRound (.jstr "https://h/p/q") 10 sampleEnvCsv).1 =
      .continued (some (.jstr "https://quiz/next")) ∧
    runLoop (.jstr "https://h/p/q") [(10, sampleEnvCsv)] =
      ([(runRound (.jstr "https://h/p/q") 10 sampleEnvCsv).2],
        .outOfFuel) := by
  have h := C7_continuation "https://h/p/q" 10 sampleEnvCsv
    [("question", .jstr "CSV file Cutoff: 100"),
     ("data_url", .jstr "data.csv"), ("submit_url", .jstr "/submit")]
    [("correct", .jbool true), ("url", .jstr "https://quiz/next")]
    "CSV file Cutoff: 100" "/submit"
    (by decide) (by norm_num) (by decide) rfl (by decide) rfl
    (Or.inr ⟨"data.csv", rfl⟩) rfl (by decide) rfl
  exact ⟨h.1.trans rfl,
    (h.2.2.2 "https://quiz/next" rfl (by decide) []).trans rfl⟩

/-- **C5.** URL resolution of `data_url` and `submit_url` against
`current_url` is standard base+relative joining and is idempotent: with
base `https://h/p/q`, the relative `data.csv` resolves to
`https://h/p/data.csv`, the root-relative `/data.csv` to
`https://h/data.csv`, and an absolute URL (here `https://x/y.csv`, and
in general any URL with a different scheme) passes through unchanged;
joining is idempotent on every input; and in a round that reaches the
resolution step, the resolved values are recorded before use: the
download is invoked on exactly the resolved `data_url` and the
submission POST targets exactly the resolved `submit_url`. -/
theorem C5_url_resolution (b : String) (elapsed : Rat) (env : RoundEnv)
    (d : Dict) (qs du su : String)
    (ht : elapsed ≤ 170)
    (hs : pyStartsWith env.scrapeResult "Error:" = false)
    (hplan : env.planLLM = .ok d)
    (hek : dictHasKey d "error" = false)
    (hq : dictGet d "question" = some (.jstr qs))
    (hdu : dictGet d "data_url" = some (.jstr du)) (hdut : du ≠ "")
    (hsu : dictGet d "submit_url" = some (.jstr su)) (hsut : su ≠ "")
    (hres : pyUrljoin b du ≠ "") :
    pyUrljoin "https://h/p/q" "data.csv" = "https://h/p/data.csv" ∧
    pyUrljoin "https://h/p/q" "/data.csv" = "https://h/data.csv" ∧
    pyUrljoin "https://h/p/q" "https://x/y.csv" = "https://x/y.csv" ∧
    (∀ u, (urlparseL u.data httpsL).scheme ≠ httpsL →
        pyUrljoin "https://h/p/q" u = u) ∧
    (∀ u, pyUrljoin "https://h/p/q" (pyUrljoin "https://h/p/q" u) =
        pyUrljoin "https://h/p/q" u) ∧
    ((runRound (.jstr b) elapsed env).2.resolvedDataUrl =
        some (pyUrljoin b du) ∧
      (runRound (.jstr b) elapsed env).2.resolvedSubmitUrl =
        some (pyUrljoin b su) ∧
      (runRound (.jstr b) elapsed env).2.downloadUrl =
        some (pyUrljoin b du) ∧
      (runRound (.jstr b) elapsed env).2.submitTarget =
        some (pyUrljoin b su)) := by
  have hfull := runRound_full b elapsed env d qs du su ht hs hplan hek hq
    hdu hdut hsu hsut
  have h2 : (runRound (.jstr b) elapsed env).2 =
      { fetchCalled := true, planCalled := true,
        resolvedDataUrl := some (pyUrljoin b du),
        resolvedSubmitUrl := some (pyUrljoin b su),
        downloadUrl := (dataAcquisition env.scrapeResult
          (some (.jstr (pyUrljoin b du))) env).1,
        dataContext := some (dataAcquisition env.scrapeResult
          (some (.jstr (pyUrljoin b du))) env).2,
        answerCalled := true,
        submitTarget := some (pyUrljoin b su) } := by rw [hfull]
  refine ⟨by decide, by decide, by decide, pyUrljoin_foreign,
    pyUrljoin_idem, ?_, ?_, ?_, ?_⟩
  · rw [h2]
  · rw [h2]
  · rw [h2]
    simp [dataAcquisition, hres]
  · rw [h2]

/-- Witness for C5: in the concrete CSV round, `data.csv` resolves to
`https://h/p/data.csv`, and the trace records the resolved data and
submit URLs. -/
theorem C5_witness :
    pyUrljoin "https://h/p/q" "data.csv" = "https://h/p/data.csv" ∧
    (runRound (.jstr "https://h/p/q") 10 sampleEnvCsv).2.resolvedDataUrl =
      some (pyUrljoin "https://h/p/q" "data.csv") ∧
    (runRound (.jstr "https://h/p/q") 10 sampleEnvCsv).2.submitTarget =
      some (pyUrljoin "https://h/p/q" "/submit") := by
  have h := C5_url_resolution "https://h/p/q" 10 sampleEnvCsv
    [("question", .jstr "CSV file Cutoff: 100"),
     ("data_url", .jstr "data.csv"), ("submit_url", .jstr "/submit")]
    "CSV file Cutoff: 100" "data.csv" "/submit"
    (by norm_num) (by decide) rfl (by decide) rfl rfl (by decide) rfl
    (by decide) (by decide)
  exact ⟨h.1, h.2.2.2.2.2.1, h.2.2.2.2.2.2.2.2⟩
